import Mathlib

/-!
Verification of the cortex multi-agent core against its specification.

Shallow embedding of the relevant program parts:
* `src/agents/brain/project_manager.py` — project / feature / task / idea
  state machine (`ProjectManager`)
* `src/memory/graduation.py`            — knowledge-fact graduation
* `src/scripts/memory_store.py`         — memory store CLI with dedup
* `src/agents/common/protocol.py`       — SQLite message bus
* `src/agents/common/llm_client.py`     — resilience wrapper of HTTP calls
* `src/agents/brain/brain.py`           — DAG layer assignment and the
  verifier / guardian delegation post-processing

SQLite tables are modelled as Lean lists of rows; the `datetime` values that
only ever get compared are modelled as naturals; Python floats are modelled
as rationals.
-/

namespace Cortex

/-! ### Project manager data model (project_manager.py dataclasses / tables) -/

/-- A row of the `projects` table (dataclass `Project`).
`status` ranges over planning, in_progress, completed, paused. -/
structure Proj where
  pid : String
  name : String
  description : String
  spec : String
  status : String
  createdAt : Nat
  domain : Option String
deriving DecidableEq, Repr

/-- A row of the `ideas` table (dataclass `Idea`).
`status` ranges over backlog, promoted, archived. -/
structure Idea where
  iid : String
  title : String
  description : String
  domain : Option String
  createdAt : Nat
  status : String
deriving DecidableEq, Repr

/-- A row of the `features` table (dataclass `Feature`).
`status` ranges over pending, in_progress, completed. -/
structure Feat where
  fid : String
  projectId : String
  title : String
  order : Int
  status : String
deriving DecidableEq, Repr

/-- A row of the `tasks` table (dataclass `Task`). `featureId` may be the
empty string for legacy tasks. -/
structure Tsk where
  tid : String
  featureId : String
  projectId : String
  title : String
  agent : String
  dependsOn : List String
  status : String
  result : Option String
  order : Int
deriving DecidableEq, Repr

/-- The persistent state of `ProjectManager` (the projects.db database). -/
structure PMState where
  projects : List Proj
  ideas : List Idea
  features : List Feat
  tasks : List Tsk
deriving DecidableEq, Repr

/-- The empty database produced by `_init_db`. -/
def PMState.empty : PMState := ⟨[], [], [], []⟩

/-- `status IN ('planning', 'in_progress')` — the WHERE clause of
`get_active_project`. -/
def isActiveStatus (st : String) : Bool :=
  st == "planning" || st == "in_progress"

/-- The projects matching `get_active_project`'s WHERE clause. -/
def activeProjects (s : PMState) : List Proj :=
  s.projects.filter (fun p => isActiveStatus p.status)

/-- `ProjectManager.get_active_project`: the row of the `projects` table with
status planning or in_progress that is latest by `created_at`
(`ORDER BY created_at DESC LIMIT 1`). -/
def get_active_project (s : PMState) : Option Proj :=
  (activeProjects s).foldl
    (fun acc p =>
      match acc with
      | none => some p
      | some q => if q.createdAt < p.createdAt then some p else some q)
    none

/-- `ProjectManager.create_project`: refuses when an active project exists,
otherwise inserts a fresh row with status planning.  The returned state is
the database after the call; a `ValueError` is modelled as `Except.error`
carrying the message, with the database untouched. -/
def create_project (s : PMState) (name description spec : String)
    (domain : Option String) (newId : String) (now : Nat) :
    PMState × Except String Proj :=
  match get_active_project s with
  | some active =>
      (s, .error ("Active project already exists: '" ++ active.name ++
        "'. Complete or pause it first (free tier: 1 project at a time)."))
  | none =>
      let project : Proj :=
        ⟨newId, name, description, spec, "planning", now, domain⟩
      ({ s with projects := s.projects ++ [project] }, .ok project)

/-- `ProjectManager.add_idea`: insert an idea with status backlog. -/
def add_idea (s : PMState) (title description : String)
    (domain : Option String) (newId : String) (now : Nat) : PMState × Idea :=
  let idea : Idea := ⟨newId, title, description, domain, now, "backlog"⟩
  ({ s with ideas := s.ideas ++ [idea] }, idea)

/-- `ProjectManager.list_ideas` (no domain filter): backlog ideas ordered by
`created_at DESC`. -/
def list_ideas (s : PMState) : List Idea :=
  ((s.ideas.filter (fun i => i.status == "backlog")).insertionSort
    (fun a b => b.createdAt ≤ a.createdAt))

/-- `ProjectManager.archive_idea`. -/
def archive_idea (s : PMState) (ideaId : String) : PMState :=
  let ideas := s.ideas.map
    (fun i => if i.iid == ideaId then { i with status := "archived" } else i)
  { s with ideas := ideas }

/-- `ProjectManager.promote_idea`: looks the idea up, sets its status to
`promoted` (committed immediately), then calls `create_project`.  A
`ValueError` raised by `create_project` propagates, but the idea's status
change is already persisted — hence the returned state keeps it. -/
def promote_idea (s : PMState) (ideaId : String) (newPid : String)
    (now : Nat) : PMState × Except String Proj :=
  match s.ideas.find? (fun i => i.iid == ideaId) with
  | none => (s, .error ("Idea " ++ ideaId ++ " not found"))
  | some idea =>
      let ideas := s.ideas.map
        (fun i => if i.iid == ideaId then { i with status := "promoted" } else i)
      let s1 : PMState := { s with ideas := ideas }
      create_project s1 idea.title idea.description "" idea.domain newPid now

/-- `ProjectManager.update_project_status`. -/
def update_project_status (s : PMState) (projectId status : String) : PMState :=
  let projects := s.projects.map
    (fun p => if p.pid == projectId then { p with status := status } else p)
  { s with projects := projects }

/-- `ProjectManager.add_features`: inserts feature rows. -/
def add_features (s : PMState) (projectId : String) (fs : List Feat) : PMState :=
  { s with features :=
      s.features ++ fs.map (fun f => { f with projectId := projectId }) }

/-- `ProjectManager.decompose_into_tasks`: inserts the task rows, then sets
the project's status to in_progress. -/
def decompose_into_tasks (s : PMState) (projectId : String)
    (ts : List Tsk) : PMState :=
  update_project_status
    { s with tasks := s.tasks ++ ts.map (fun t => { t with projectId := projectId }) }
    projectId "in_progress"

/-- `status NOT IN ('completed', 'skipped')` — a task still counts as
unfinished for the auto-completion queries. -/
def isUnfinished (st : String) : Bool :=
  !(st == "completed" || st == "skipped")

/-- `ProjectManager._auto_complete_feature`: if the feature id is non-empty
and no task of the feature is unfinished, mark the feature completed. -/
def auto_complete_feature (s : PMState) (featureId : String) : PMState :=
  if featureId == "" then s
  else if (s.tasks.filter
      (fun t => t.featureId == featureId && isUnfinished t.status)).length == 0 then
    let features := s.features.map
      (fun f => if f.fid == featureId then { f with status := "completed" } else f)
    { s with features := features }
  else s

/-- The `UPDATE tasks SET status = 'completed', result = ? WHERE id = ?`
statement opening `ProjectManager.complete_task`. -/
def complete_task_mark (s : PMState) (taskId result : String) : PMState :=
  let tasks := s.tasks.map
    (fun t => if t.tid == taskId
      then { t with status := "completed", result := some result } else t)
  { s with tasks := tasks }

/-- The closing block of `ProjectManager.complete_task`: when no task of the
project is unfinished, mark the project completed. -/
def complete_project_if_done (s : PMState) (projectId : String) : PMState :=
  if (s.tasks.filter
      (fun t => t.projectId == projectId && isUnfinished t.status)).length == 0
  then
    let projects := s.projects.map
      (fun p => if p.pid == projectId then { p with status := "completed" } else p)
    { s with projects := projects }
  else s

/-- `ProjectManager.complete_task`: set the task's status to completed and
store the result; then, reading the task row back, auto-complete its feature
and — when no task of the project is unfinished — the project. -/
def complete_task (s : PMState) (taskId result : String) : PMState :=
  let s1 := complete_task_mark s taskId result
  match s1.tasks.find? (fun t => t.tid == taskId) with
  | none => s1
  | some row =>
      let s2 := if row.featureId == "" then s1
        else auto_complete_feature s1 row.featureId
      complete_project_if_done s2 row.projectId

/-- `ProjectManager.fail_task`. -/
def fail_task (s : PMState) (taskId error : String) : PMState :=
  let tasks := s.tasks.map
    (fun t => if t.tid == taskId
      then { t with status := "failed", result := some error } else t)
  { s with tasks := tasks }

/-- `ProjectManager.set_task_in_progress`: the task goes to in_progress and
its feature, when pending, too. -/
def set_task_in_progress (s : PMState) (taskId : String) : PMState :=
  let tasks := s.tasks.map
    (fun t => if t.tid == taskId then { t with status := "in_progress" } else t)
  let s1 : PMState := { s with tasks := tasks }
  match s1.tasks.find? (fun t => t.tid == taskId) with
  | none => s1
  | some row =>
      if row.featureId == "" then s1
      else
        let features := s1.features.map
          (fun f => if f.fid == row.featureId && f.status == "pending"
            then { f with status := "in_progress" } else f)
        { s1 with features := features }

/-! ### Reachable states of the project store

The mutating entry points of `ProjectManager`, composed the way the
orchestrator (`brain.py`) invokes them: `update_project_status` is only ever
called with status `paused` (pause / cancel commands), and
`decompose_into_tasks` is only invoked on the project that was just created
by `create_project` / `promote_idea` — a project that is active, and by the
`projects.id` primary key the only row bearing its id. -/
inductive Reach : PMState → Prop where
  | empty : Reach PMState.empty
  | create (s : PMState) (n d sp : String) (dom : Option String)
      (id : String) (now : Nat) :
      Reach s → Reach (create_project s n d sp dom id now).1
  | promote (s : PMState) (iid pid : String) (now : Nat) :
      Reach s → Reach (promote_idea s iid pid now).1
  | addIdea (s : PMState) (t d : String) (dom : Option String)
      (id : String) (now : Nat) :
      Reach s → Reach (add_idea s t d dom id now).1
  | archiveIdea (s : PMState) (iid : String) :
      Reach s → Reach (archive_idea s iid)
  | addFeatures (s : PMState) (pid : String) (fs : List Feat) :
      Reach s → Reach (add_features s pid fs)
  | pause (s : PMState) (pid : String) :
      Reach s → Reach (update_project_status s pid "paused")
  | decompose (s : PMState) (pid : String) (ts : List Tsk) :
      Reach s →
      (∀ q ∈ s.projects, q.pid = pid → isActiveStatus q.status = true) →
      Reach (decompose_into_tasks s pid ts)
  | completeTask (s : PMState) (tid r : String) :
      Reach s → Reach (complete_task s tid r)
  | failTask (s : PMState) (tid e : String) :
      Reach s → Reach (fail_task s tid e)
  | taskInProgress (s : PMState) (tid : String) :
      Reach s → Reach (set_task_in_progress s tid)

/-! ### Concrete stores used by the witnesses -/

/-- A concrete reachable store holding one active (planning) project. -/
def c1state : PMState :=
  (create_project PMState.empty "Test App" "a test" "# Spec" none "p1" 0).1

/-- A concrete in-progress project row. -/
def c2proj : Proj := ⟨"p1", "Proj", "", "", "in_progress", 0, none⟩

/-- A concrete pending feature row of `c2proj`. -/
def c2feat : Feat := ⟨"f1", "p1", "Feat", 0, "pending"⟩

/-- A concrete pending task row of `c2feat`. -/
def c2task : Tsk := ⟨"t1", "f1", "p1", "Task", "builder", [], "pending", none, 0⟩

/-- A store with one project, one feature, one last pending task. -/
def c2state : PMState := ⟨[c2proj], [], [c2feat], [c2task]⟩

/-- The store after completing the last task. -/
def c2result : PMState := complete_task c2state c2task.tid "done"

/-- A concrete active (planning) project row. -/
def c10proj : Proj := ⟨"p1", "Active", "", "", "planning", 0, none⟩

/-- A concrete backlog idea row. -/
def c10idea : Idea := ⟨"i1", "TUI for todos", "", none, 0, "backlog"⟩

/-- A store with one active project and one backlog idea. -/
def c10state : PMState := ⟨[c10proj], [c10idea], [], []⟩

/-! ### Knowledge graduation (memory/graduation.py)

A `knowledge_cache` row restricted to the columns `run_graduation` reads.
`ageDays` stands for `(now - verified_at).days` (0 when `verified_at` is
missing or unparsable); `sinceAccessDays` for `(now - last_accessed_at).days`
(999 when missing or unparsable); both are unchanged by a graduation run,
matching the claim's premise of no intervening change to the counters or
timestamps. -/
structure Fact where
  fid : String
  confidence : Option ℚ
  accessCount : Option Int
  ageDays : Int
  sinceAccessDays : Int
  contradicted : Bool
  needsReverify : Bool
deriving DecidableEq, Repr

/-- Model of Python `round(x, 2)` (the half-even rounding of the float
differs from half-up only on exact two-and-a-half-digit halves, which never
arise from the 0.1-step arithmetic of graduation). -/
def round2 (q : ℚ) : ℚ := (Int.floor (q * 100 + 1/2) : ℚ) / 100

/-- The promotion / decay `elif` chain of `run_graduation`: the new
confidence together with whether an action fired. -/
def gradStep (f : Fact) (confidence : ℚ) (accessCount : Int) : ℚ × Bool :=
  if accessCount ≥ 10 ∧ f.ageDays > 90 ∧ f.contradicted = false then
    (1, true)
  else if accessCount ≥ 3 ∧ f.ageDays > 30 ∧ f.contradicted = false ∧
      confidence < 19/20 then
    (19/20, true)
  else if f.sinceAccessDays > 180 ∧ confidence < 1 then
    (round2 (max 0 (confidence - 1/10)), true)
  else (confidence, false)

/-- `confidence = row["confidence"] or 0.8`: by Python truthiness both
`NULL` and `0.0` default to 0.8. -/
def defaultedConf (f : Fact) : ℚ :=
  match f.confidence with
  | none => 4/5
  | some c => if c = 0 then 4/5 else c

/-- One `run_graduation` pass over a single `knowledge_cache` row.
Rows with confidence ≥ 1.0 are skipped (`continue`); otherwise the `elif`
chain runs, a resulting confidence below 0.5 flags `needs_reverify`, and the
row is written back only when the confidence changed or an action fired. -/
def graduateFact (f : Fact) : Fact :=
  let confidence : ℚ := defaultedConf f
  let accessCount : Int := f.accessCount.getD 0
  if confidence ≥ 1 then f
  else
    let nc := (gradStep f confidence accessCount).1
    let acted := (gradStep f confidence accessCount).2
    let nr := if nc < 1/2 then true else f.needsReverify
    let acted2 := if nc < 1/2 then true else acted
    if nc ≠ confidence ∨ acted2 = true then
      { f with confidence := some nc, needsReverify := nr }
    else f

/-- `run_graduation` over the whole `knowledge_cache` table: each row is
processed independently. -/
def run_graduation (facts : List Fact) : List Fact :=
  facts.map graduateFact

/-- A permanent fact (confidence 1.0) with extreme age and staleness. -/
def c6fact : Fact := ⟨"perm", some 1, some 0, 300, 200, false, false⟩

/-- A stale fact: confidence 0.8, never promoted, unaccessed for 200 days. -/
def c5fact : Fact := ⟨"stale", some (4/5), some 0, 200, 200, false, false⟩

/-- A fresh promotable fact (access 5, age 45 days, accessed recently). -/
def c5fresh : Fact := ⟨"fresh", some (4/5), some 5, 45, 1, false, false⟩

/-! ### Memory store CLI (scripts/memory_store.py)

A row of the `memories` table restricted to the columns the script touches.
`embedding` is the deserialized float32 blob (`none` for NULL). -/
structure MemRow where
  mid : String
  content : String
  embedding : Option (List ℚ)
  importance : ℚ
  createdAt : Nat
deriving DecidableEq, Repr

/-- Dot product of two embedding vectors (`np.dot`). -/
def dot (a b : List ℚ) : ℚ := (List.zipWith (fun x y => x * y) a b).sum

/-- Squared L2 norm. -/
def normSq (a : List ℚ) : ℚ := dot a a

/-- Decides `cosine_similarity(a, b) > t` exactly, for a threshold `t > 0`,
without leaving ℚ: `cosine_similarity` returns 0.0 when either norm is 0,
and otherwise dot/(‖a‖·‖b‖) > t ⟺ dot > 0 ∧ t²·‖a‖²·‖b‖² < dot². -/
def cosSimGT (a b : List ℚ) (t : ℚ) : Bool :=
  if normSq a = 0 ∨ normSq b = 0 then decide ((0:ℚ) > t)
  else decide (0 < dot a b ∧ t ^ 2 * (normSq a * normSq b) < dot a b ^ 2)

/-- Decides `cosine_similarity(a, b) ≥ t` exactly, for a threshold `t > 0`. -/
def cosSimGE (a b : List ℚ) (t : ℚ) : Bool :=
  if normSq a = 0 ∨ normSq b = 0 then decide ((0:ℚ) ≥ t)
  else decide (0 < dot a b ∧ t ^ 2 * (normSq a * normSq b) ≤ dot a b ^ 2)

/-- The body of `memory_store.main` after the embedding is computed: scan
the 50 most recent rows (`ORDER BY created_at DESC LIMIT 50`); any row with
a non-empty embedding whose cosine similarity to the new embedding exceeds
0.9 makes the script print "Skipped (duplicate…)" and return with no
mutation at all; otherwise a fresh row is inserted with the text, the
embedding, and `importance / 10`.  The `!e.isEmpty` guard models the Python
truthiness test `if row["embedding"]:` (an empty blob is falsy). -/
def memoryStoreStep (rows : List MemRow) (newId text : String)
    (emb : List ℚ) (importance : ℚ) (now : Nat) : List MemRow :=
  let recent := (rows.insertionSort (fun a b => b.createdAt ≤ a.createdAt)).take 50
  if recent.any (fun r => match r.embedding with
      | some e => !e.isEmpty && cosSimGT emb e (9/10)
      | none => false) then
    rows
  else
    rows ++ [⟨newId, text, some emb, importance / 10, now⟩]

/-- A stored memory row with embedding `[1]` and importance 0.5. -/
def c3row : MemRow := ⟨"m1", "I prefer Python", some [1], 1/2, 0⟩

/-- A stored memory row with embedding `[1, 0]`. -/
def c3rowB : MemRow := ⟨"m1", "text", some [1, 0], 1/2, 0⟩

/-! ### Message bus (agents/common/protocol.py) -/

/-- A row of the `message_queue` table (columns touched by
`MessageBus.update_status`; `rid` is the AUTOINCREMENT primary key). -/
structure BusRow where
  rid : Nat
  taskId : String
  fromAgent : String
  toAgent : String
  status : String
  result : Option String
  error : Option String
  updatedAt : String
deriving DecidableEq, Repr

/-- `MessageBus.update_status`: the SQL is `UPDATE message_queue SET
status = ?, result = ?, error = ?, updated_at = ? WHERE task_id = ?` — the
WHERE clause constrains only `task_id`, so every row bearing that task id is
overwritten.  `result` carries `json.dumps(result)` when truthy, else NULL. -/
def update_status (bus : List BusRow) (taskId status : String)
    (result error : Option String) (now : String) : List BusRow :=
  bus.map (fun row => if row.taskId == taskId
    then { row with
           status := status
           result := result
           error := error
           updatedAt := now }
    else row)

/-- `MessageBus.get_task`: `SELECT * FROM message_queue WHERE task_id = ?
ORDER BY id DESC LIMIT 1` — the row with the largest id for the task. -/
def get_task (bus : List BusRow) (taskId : String) : Option BusRow :=
  (bus.filter (fun r => r.taskId == taskId)).foldl
    (fun acc r => match acc with
      | none => some r
      | some q => if q.rid < r.rid then some r else some q)
    none

/-- An earlier pending bus row of task `t`. -/
def c7row1 : BusRow := ⟨1, "t", "brain", "builder", "pending", none, none, "t0"⟩

/-- A later in-progress bus row of the same task `t`. -/
def c7row2 : BusRow := ⟨2, "t", "builder", "brain", "in_progress", none, none, "t0"⟩

/-- A bus with two rows of the same task id. -/
def c7bus : List BusRow := [c7row1, c7row2]

/-! ### LLM client resilience wrapper (agents/common/llm_client.py) -/

/-- The shape of one awaited `fn(...)` call inside
`LLMClient._call_with_resilience`: a normal return, an
`httpx.HTTPStatusError` with a status code, an `asyncio.TimeoutError`, an
`httpx.TimeoutException`, or any other exception. -/
inductive CallOutcome where
  | ok (content : String)
  | httpError (code : Nat)
  | timeoutAsync
  | timeoutHttpx
  | exc (msg : String)
deriving DecidableEq, Repr

/-- What the wrapper produces: the provider response, a structured
`_error_result` record (`{error: True, message, provider, content: ""}`), or
an exception escaping the wrapper. -/
inductive LLMResult where
  | success (content : String)
  | errorRec (message : String)
  | raised (msg : String)
deriving DecidableEq, Repr

/-- The 429 retry loop (`for attempt, delay in enumerate([2, 4, 8])`): each
retry awaits `fn` catching only `httpx.HTTPStatusError`; a non-429 status
short-circuits to an error record, any other exception escapes.  `used`
counts the calls consumed so far. -/
def retry429 (provider : String) : Nat → List CallOutcome → Nat → LLMResult × Nat
  | 0, _, used => (.errorRec ("Rate limited by " ++ provider ++ " after 3 retries"), used)
  | _ + 1, [], used => (.errorRec "no call", used)
  | fuel + 1, o :: rest, used =>
    match o with
    | .ok c => (.success c, used + 1)
    | .httpError s =>
        if s = 429 then retry429 provider fuel rest (used + 1)
        else (.errorRec ("HTTP " ++ toString s ++ " from " ++ provider), used + 1)
    | .timeoutAsync => (.raised "asyncio.TimeoutError", used + 1)
    | .timeoutHttpx => (.raised "httpx.TimeoutException", used + 1)
    | .exc m => (.raised m, used + 1)

/-- `LLMClient._call_with_resilience` as a function of the successive
outcomes of `fn(...)`, returning the result and the number of calls
consumed.  Except-clauses in source order: `asyncio.TimeoutError` (one retry
with doubled deadline, second failure of any kind → error record);
`httpx.HTTPStatusError` (401 → immediate error; 429 → the retry loop;
500/502/503 → one retry after 3s with any second failure → error record;
any other status → immediate error record); `httpx.TimeoutException` (one
retry, any second failure → error record); any other exception → error
record.  An empty outcome list cannot arise (each attempt consumes one). -/
def callWithResilience (provider : String) : List CallOutcome → LLMResult × Nat
  | [] => (.errorRec "no call", 0)
  | o :: rest =>
    match o with
    | .ok c => (.success c, 1)
    | .timeoutAsync =>
        (match rest with
         | .ok c :: _ => (.success c, 2)
         | _ => (.errorRec "Request timed out after retry", 2))
    | .httpError code =>
        if code = 401 then (.errorRec ("API key invalid for " ++ provider), 1)
        else if code = 429 then retry429 provider 3 rest 1
        else if code = 500 ∨ code = 502 ∨ code = 503 then
          (match rest with
           | .ok c :: _ => (.success c, 2)
           | _ => (.errorRec ("Server error " ++ toString code ++ " from "
               ++ provider ++ " after retry"), 2))
        else (.errorRec ("HTTP " ++ toString code ++ " from " ++ provider), 1)
    | .timeoutHttpx =>
        (match rest with
         | .ok c :: _ => (.success c, 2)
         | _ => (.errorRec ("Timeout from " ++ provider ++ " after retry"), 2))
    | .exc m => (.errorRec ("Unexpected error from " ++ provider ++ ": " ++ m), 1)

/-- C8 as the spec states it: every HTTP failure with a 5xx status code is
retried exactly once (two calls consumed). -/
def retriesEvery5xxOnce (provider : String) : Prop :=
  ∀ code, 500 ≤ code → code ≤ 599 →
    ∀ next rest, (callWithResilience provider
      (CallOutcome.httpError code :: next :: rest)).2 = 2

/-! ### Verifier / guardian delegation post-processing (brain.py) -/

/-- A JSON value as produced by `json.loads`. -/
inductive Json where
  | str (s : String)
  | num (q : ℚ)
  | bool (b : Bool)
  | null
  | arr (xs : List Json)
  | obj (kvs : List (String × Json))

/-- `isinstance(parsed, dict)`. -/
def Json.isObj : Json → Bool
  | .obj _ => true
  | _ => false

/-- `"verdict" in parsed`. -/
def Json.hasKey : Json → String → Bool
  | .obj kvs, k => kvs.any (fun kv => kv.1 == k)
  | _, _ => false

/-- `parsed[key]` lookup. -/
def Json.get? : Json → String → Option Json
  | .obj kvs, k => (kvs.find? (fun kv => kv.1 == k)).map (fun kv => kv.2)
  | _, _ => none

/-- The result object of `SessionManager.delegate` as the brain consumes it:
a `success` flag, stdout as `result`, stderr as `error`. -/
structure DelegationResult where
  success : Bool
  result : Option String
  error : Option String
deriving DecidableEq, Repr

/-- Python truthiness of `result.result` (None and "" are falsy). -/
def resultTruthy (r : Option String) : Bool :=
  match r with
  | some s => !(s == "")
  | none => false

/-- `BrainAgent._delegate_to_verifier` after the delegation returns:
`parsed` stands for the outcome of `json.loads(result.result)` (`none` when
it raises).  A successful non-empty result that parses to a dict containing
"verdict" is returned as-is; any other output becomes a PASS verdict with
the first 500 characters as notes; a failed delegation becomes a PASS
verdict marked "Verifier unavailable — skipped". -/
def delegate_to_verifier_verdict (res : DelegationResult)
    (parsed : Option Json) : Json :=
  if res.success && resultTruthy res.result then
    match parsed with
    | some p =>
        if p.isObj && p.hasKey "verdict" then p
        else Json.obj [("verdict", .str "PASS"),
          ("notes", .str ((res.result.getD "").take 500)),
          ("issues", .arr []), ("suggestions", .arr [])]
    | none => Json.obj [("verdict", .str "PASS"),
        ("notes", .str ((res.result.getD "").take 500)),
        ("issues", .arr []), ("suggestions", .arr [])]
  else
    Json.obj [("verdict", .str "PASS"),
      ("notes", .str "Verifier unavailable — skipped"),
      ("issues", .arr []), ("suggestions", .arr [])]

/-- `BrainAgent._delegate_to_guardian` after the delegation returns; same
fail-open shape with the guardian's default verdict object. -/
def delegate_to_guardian_verdict (res : DelegationResult)
    (parsed : Option Json) : Json :=
  if res.success && resultTruthy res.result then
    match parsed with
    | some p =>
        if p.isObj && p.hasKey "verdict" then p
        else Json.obj [("verdict", .str "PASS"), ("issues", .arr []),
          ("severity", .str "low"), ("recommendations", .arr [])]
    | none => Json.obj [("verdict", .str "PASS"), ("issues", .arr []),
        ("severity", .str "low"), ("recommendations", .arr [])]
  else
    Json.obj [("verdict", .str "PASS"), ("issues", .arr []),
      ("severity", .str "low"),
      ("recommendations", .arr [Json.str "Guardian unavailable — skipped"])]

/-! ### DAG layer assignment (BrainAgent._build_execution_layers) -/

/-- `assign_layer(idx, visited)` of `_build_execution_layers`, with the
mutable `layers_assigned` array threaded explicitly and the recursion
bounded by explicit fuel: the Python recursion terminates because the
visited set grows on every nested call, so any fuel with
`n + 1 ≤ fuel + |visited|` suffices and the fuel-exhausted branch is
unreachable (the lemmas below always provide such fuel; the top level
passes `n + 1`).  A subtask is modelled by its `depends_on` index list.
`visited` is the Python set: elements are only added when absent and the
callee removes what it added (`visited.discard(idx)`), so value-passing a
duplicate-free list is faithful.  Out-of-range dependency indices are
skipped (`if 0 <= dep_idx < n`); re-entering a visited index — a circular
dependency — logs a warning and returns 0 without assigning the index. -/
def assignLayer (subtasks : List (List Int)) :
    Nat → Nat → List Nat → List Int → List Int × Int
  | 0, _, _, layers => (layers, 0)
  | fuel + 1, idx, visited, layers =>
    if 0 ≤ layers.getD idx (-1) then (layers, layers.getD idx (-1))
    else if idx ∈ visited then (layers, 0)
    else
      let ds := subtasks.getD idx []
      if ds = [] then (layers.set idx 0, 0)
      else
        let r := ds.foldl
          (fun (acc : List Int × Int) d =>
            if 0 ≤ d ∧ d < (subtasks.length : Int) then
              let q := assignLayer subtasks fuel d.toNat (idx :: visited) acc.1
              (q.1, max acc.2 q.2)
            else acc)
          (layers, 0)
        (r.1.set idx (r.2 + 1), r.2 + 1)

/-- The `layers_assigned` array after the main loop
(`for i in range(n): assign_layer(i, set())`), starting from `[-1] * n`. -/
def assignedLayers (subtasks : List (List Int)) : List Int :=
  (List.range subtasks.length).foldl
    (fun layers i =>
      (assignLayer subtasks (subtasks.length + 1) i [] layers).1)
    (List.replicate subtasks.length (-1))

/-- `max(layers_assigned) if layers_assigned else 0`. -/
def maxAssigned (subtasks : List (List Int)) : Int :=
  match assignedLayers subtasks with
  | [] => 0
  | x :: xs => xs.foldl max x

/-- `_build_execution_layers`: assign a layer to every index, then bucket
the indices by layer (a subtask is represented by its index; Python
appends the subtask dicts in index order, which is the order the filter
preserves).  Every index ends up assigned a layer ≥ 0 — proved in
`dag_layer_assignment` — so the grouping drops nothing. -/
def build_execution_layers (subtasks : List (List Int)) : List (List Nat) :=
  if subtasks.isEmpty then []
  else
    (List.range (maxAssigned subtasks + 1).toNat).map
      (fun (k : Nat) => (List.range subtasks.length).filter
        (fun idx => (assignedLayers subtasks).getD idx (-1) == ((k : Nat) : Int)))

/-- The loop body of `assign_layer`'s dependency fold, named for the
lemmas below (definitionally the lambda inside `assignLayer`). -/
def alStep (subtasks : List (List Int)) (fuel idx : Nat) (visited : List Nat) :
    List Int × Int → Int → List Int × Int :=
  fun acc d =>
    if 0 ≤ d ∧ d < (subtasks.length : Int) then
      ((assignLayer subtasks fuel d.toNat (idx :: visited) acc.1).1,
       max acc.2 (assignLayer subtasks fuel d.toNat (idx :: visited) acc.1).2)
    else acc

/-- The maximum layer among the in-range dependencies, per a candidate
layer function `f` (the `max_dep_layer` accumulator of the source). -/
def depMax (subtasks : List (List Int)) (f : Nat → Nat) (ds : List Int) : Nat :=
  ds.foldl (fun m d =>
    if 0 ≤ d ∧ d < (subtasks.length : Int) then max m (f d.toNat) else m) 0

/-- `f` is the layer function the spec describes: 0 for tasks with no
dependencies, otherwise 1 + the maximum over the in-range dependencies'
layers.  Such an `f` exists exactly when the in-range dependency graph is
acyclic (along a cycle `f` would strictly decrease into itself). -/
def LayerSpec (subtasks : List (List Int)) (f : Nat → Nat) : Prop :=
  ∀ i, i < subtasks.length →
    f i = (if subtasks.getD i [] = [] then 0
           else depMax subtasks f (subtasks.getD i []) + 1)

/-- Mapping a function over the projects that deactivates or keeps every row
cannot increase the number of active projects. -/
lemma length_filter_active_map_le (l : List Proj) (f : Proj → Proj)
    (h : ∀ p ∈ l, f p = p ∨ isActiveStatus (f p).status = false) :
    ((l.map f).filter (fun p => isActiveStatus p.status)).length ≤
      (l.filter (fun p => isActiveStatus p.status)).length := by
  induction l with
  | nil => simp
  | cons a t ih =>
    have ht : ∀ p ∈ t, f p = p ∨ isActiveStatus (f p).status = false :=
      fun p hp => h p (List.mem_cons_of_mem _ hp)
    have htle := ih ht
    rcases h a (List.mem_cons_self _ _) with ha | ha
    · simp only [List.map_cons, List.filter_cons, ha]
      by_cases hA : isActiveStatus a.status
      · simp only [hA, if_pos, List.length_cons]
        exact Nat.succ_le_succ htle
      · simp only [hA, if_neg, Bool.false_eq_true, not_false_iff]
        simpa using htle
    · simp only [List.map_cons, List.filter_cons, ha]
      by_cases hA : isActiveStatus a.status
      · simp only [hA, if_pos]
        exact Nat.le_succ_of_le htle
      · simpa [hA] using htle

/-- Mapping a function over the projects that preserves every row's
activity flag preserves the number of active projects. -/
lemma length_filter_active_map_eq (l : List Proj) (f : Proj → Proj)
    (h : ∀ p ∈ l, isActiveStatus (f p).status = isActiveStatus p.status) :
    ((l.map f).filter (fun p => isActiveStatus p.status)).length =
      (l.filter (fun p => isActiveStatus p.status)).length := by
  induction l with
  | nil => simp
  | cons a t ih =>
    have ht := ih (fun p hp => h p (List.mem_cons_of_mem _ hp))
    have ha := h a (List.mem_cons_self _ _)
    simp only [List.map_cons, List.filter_cons, ha]
    by_cases hA : isActiveStatus a.status
    · simp [hA, ht]
    · simp [hA, ht]

/-- `get_active_project` finds nothing exactly when no project row is
active. -/
lemma get_active_project_none (s : PMState) :
    get_active_project s = none ↔ activeProjects s = [] := by
  constructor
  · intro h
    unfold get_active_project at h
    cases hl : activeProjects s with
    | nil => rfl
    | cons x xs =>
      exfalso
      rw [hl] at h
      have : ∀ (ys : List Proj) (q : Proj),
          (ys.foldl (fun acc p =>
            match acc with
            | none => some p
            | some q => if q.createdAt < p.createdAt then some p else some q)
            (some q)) ≠ none := by
        intro ys
        induction ys with
        | nil => intro q; simp
        | cons y t ih =>
          intro q
          simp only [List.foldl_cons]
          by_cases hc : q.createdAt < y.createdAt
          · simpa [hc] using ih y
          · simpa [hc] using ih q
      exact this xs x (by simpa using h)
  · intro h
    unfold get_active_project
    rw [h]
    rfl

/-- The feature auto-completion step never touches the `projects` table. -/
lemma auto_complete_feature_projects (s : PMState) (fid : String) :
    (auto_complete_feature s fid).projects = s.projects := by
  unfold auto_complete_feature
  split
  · rfl
  · split <;> rfl

/-- The feature auto-completion step never touches the `tasks` table. -/
lemma auto_complete_feature_tasks (s : PMState) (fid : String) :
    (auto_complete_feature s fid).tasks = s.tasks := by
  unfold auto_complete_feature
  split
  · rfl
  · split <;> rfl

/-- The project auto-completion step either leaves the `projects` table
alone or maps the given project to status completed. -/
lemma complete_project_if_done_projects (s : PMState) (pid : String) :
    (complete_project_if_done s pid).projects = s.projects ∨
    (complete_project_if_done s pid).projects = s.projects.map
      (fun p => if p.pid == pid then { p with status := "completed" } else p) := by
  unfold complete_project_if_done
  split
  · right; rfl
  · left; rfl

/-- `complete_task` either leaves the `projects` table alone or maps the
owning project to status completed. -/
lemma complete_task_projects (s : PMState) (tid r : String) :
    (complete_task s tid r).projects = s.projects ∨
    ∃ pidT, (complete_task s tid r).projects = s.projects.map
      (fun p => if p.pid == pidT then { p with status := "completed" } else p) := by
  unfold complete_task
  dsimp only
  split
  · left; rfl
  · rename_i row _
    have hs2 : (if (row.featureId == "") = true
        then complete_task_mark s tid r
        else auto_complete_feature (complete_task_mark s tid r) row.featureId).projects
        = s.projects := by
      split
      · rfl
      · rw [auto_complete_feature_projects]; rfl
    rcases complete_project_if_done_projects
        (if (row.featureId == "") = true
          then complete_task_mark s tid r
          else auto_complete_feature (complete_task_mark s tid r) row.featureId)
        row.projectId with h | h
    · left; rw [h, hs2]
    · right; exact ⟨row.projectId, by rw [h, hs2]⟩

/-- Creating a project preserves the single-active bound: it either refuses
(active project present) or inserts the sole active row. -/
lemma create_project_active_le (s : PMState) (n d sp : String)
    (dom : Option String) (id : String) (now : Nat)
    (h : (activeProjects s).length ≤ 1) :
    (activeProjects (create_project s n d sp dom id now).1).length ≤ 1 := by
  unfold create_project
  cases hA : get_active_project s with
  | some a => simpa using h
  | none =>
    have hnil : List.filter (fun p => isActiveStatus p.status) s.projects = [] :=
      (get_active_project_none s).mp hA
    show ((s.projects ++ [(⟨id, n, d, sp, "planning", now, dom⟩ : Proj)]).filter
        (fun p => isActiveStatus p.status)).length ≤ 1
    rw [List.filter_append, hnil, List.nil_append]
    simp [isActiveStatus]

/-- C1 invariant: every reachable state of the project store has at most one
project in status planning or in_progress. -/
lemma reach_single_active (s : PMState) (h : Reach s) :
    (activeProjects s).length ≤ 1 := by
  induction h with
  | empty => simp [PMState.empty, activeProjects]
  | create s n d sp dom id now _ ih => exact create_project_active_le _ _ _ _ _ _ _ ih
  | promote s iid pid now _ ih =>
    unfold promote_idea
    cases hF : s.ideas.find? (fun i => i.iid == iid) with
    | none => simpa using ih
    | some idea =>
      simp only
      apply create_project_active_le
      simpa [activeProjects] using ih
  | addIdea s t d dom id now _ ih => simpa [add_idea, activeProjects] using ih
  | archiveIdea s iid _ ih => simpa [archive_idea, activeProjects] using ih
  | addFeatures s pid fs _ ih => simpa [add_features, activeProjects] using ih
  | pause s pid _ ih =>
    refine le_trans ?_ ih
    unfold update_project_status activeProjects
    apply length_filter_active_map_le
    intro p _
    by_cases hp : p.pid == pid
    · right; simp [hp, isActiveStatus]
    · left; simp [hp]
  | decompose s pid ts hR hAct ih =>
    refine le_trans (le_of_eq ?_) ih
    show ((s.projects.map (fun p => if p.pid == pid
        then { p with status := "in_progress" } else p)).filter
        (fun p => isActiveStatus p.status)).length = (activeProjects s).length
    refine length_filter_active_map_eq s.projects _ ?_
    intro p hp
    by_cases hq : p.pid == pid
    · have hact : isActiveStatus p.status = true := hAct p hp (by simpa using hq)
      simp only [hq, if_pos, hact]
      decide
    · simp [hq]
  | completeTask s tid r _ ih =>
    rcases complete_task_projects s tid r with h | ⟨pidT, h⟩
    · have : activeProjects (complete_task s tid r) = activeProjects s := by
        unfold activeProjects; rw [h]
      rw [this]; exact ih
    · unfold activeProjects
      rw [h]
      refine le_trans (length_filter_active_map_le _ _ ?_) ih
      intro p _
      by_cases hp : p.pid == pidT
      · right; simp [hp, isActiveStatus]
      · left; simp [hp]
  | failTask s tid e _ ih => simpa [fail_task, activeProjects] using ih
  | taskInProgress s tid _ ih =>
    have hproj : (set_task_in_progress s tid).projects = s.projects := by
      unfold set_task_in_progress
      dsimp only
      split
      · rfl
      · split <;> rfl
    have : activeProjects (set_task_in_progress s tid) = activeProjects s := by
      unfold activeProjects; rw [hproj]
    rw [this]; exact ih

/-- C1: single-active-project rule.  Every reachable state of the project
store has at most one project in status planning or in_progress, and
`create_project` called while such a project exists raises a `ValueError`
and inserts no new project row (the state is returned unchanged). -/
theorem single_active_project_rule (s : PMState) (h : Reach s)
    (n d sp : String) (dom : Option String) (id : String) (now : Nat) :
    (activeProjects s).length ≤ 1 ∧
    ((get_active_project s).isSome = true →
      (create_project s n d sp dom id now).1 = s ∧
      ∃ msg, (create_project s n d sp dom id now).2 = Except.error msg) := by
  refine ⟨reach_single_active s h, ?_⟩
  intro hsome
  cases hA : get_active_project s with
  | none => rw [hA] at hsome; simp at hsome
  | some a =>
    unfold create_project
    rw [hA]
    exact ⟨rfl, ⟨_, rfl⟩⟩

/-- Witness for C1 at a concrete reachable state with an active project. -/
theorem single_active_project_rule_witness :
    (activeProjects c1state).length ≤ 1 ∧
    (create_project c1state "P2" "d2" "s2" none "p2" 1).1 = c1state ∧
    ∃ msg, (create_project c1state "P2" "d2" "s2" none "p2" 1).2 =
      Except.error msg := by
  have hR : Reach c1state :=
    Reach.create PMState.empty "Test App" "a test" "# Spec" none "p1" 0 Reach.empty
  have h := single_active_project_rule c1state hR "P2" "d2" "s2" none "p2" 1
  have h2 := h.2 (by decide)
  exact ⟨h.1, h2.1, h2.2⟩

/-- Distinct rows of a table with `Nodup` primary keys are equal once their
keys agree. -/
lemma eq_of_mem_nodup_tid {l : List Tsk}
    (h : (l.map Tsk.tid).Nodup) {u v : Tsk}
    (hu : u ∈ l) (hv : v ∈ l) (he : u.tid = v.tid) : u = v := by
  induction l with
  | nil => cases hu
  | cons a xs ih =>
    rw [List.map_cons, List.nodup_cons] at h
    rcases List.mem_cons.mp hu with rfl | hu'
    · rcases List.mem_cons.mp hv with rfl | hv'
      · rfl
      · exact absurd (he ▸ List.mem_map_of_mem Tsk.tid hv') h.1
    · rcases List.mem_cons.mp hv with rfl | hv'
      · exact absurd (he ▸ List.mem_map_of_mem Tsk.tid hu') h.1
      · exact ih h.2 hu' hv'

/-- The task-update map of `complete_task` preserves each row's id. -/
lemma complete_task_mark_tid (tid r : String) (t : Tsk) :
    ((fun t => if t.tid == tid
      then { t with status := "completed", result := some r } else t) t).tid
      = t.tid := by
  by_cases h : t.tid == tid <;> simp [h]

/-- C2: task completion cascade.  For a task present in the store (with the
primary-key uniqueness SQLite enforces on `tasks.id`), `complete_task` sets
that task's status to completed with the given result; when afterwards the
owning feature has no task outside completed/skipped the feature becomes
completed, and when the project has no such task the project becomes
completed. -/
theorem complete_task_cascade (s : PMState) (t : Tsk) (r : String)
    (hmem : t ∈ s.tasks) (hnodup : (s.tasks.map Tsk.tid).Nodup) :
    (∀ u ∈ (complete_task s t.tid r).tasks, u.tid = t.tid →
      u.status = "completed" ∧ u.result = some r) ∧
    (t.featureId ≠ "" →
      (∀ u ∈ (complete_task s t.tid r).tasks,
        u.featureId = t.featureId → isUnfinished u.status = false) →
      ∀ f ∈ (complete_task s t.tid r).features,
        f.fid = t.featureId → f.status = "completed") ∧
    ((∀ u ∈ (complete_task s t.tid r).tasks,
        u.projectId = t.projectId → isUnfinished u.status = false) →
      ∀ p ∈ (complete_task s t.tid r).projects,
        p.pid = t.projectId → p.status = "completed") := by
  set upd : Tsk → Tsk := fun u => if u.tid == t.tid
    then { u with status := "completed", result := some r } else u with hupd
  set t' : Tsk := { t with status := "completed", result := some r } with ht'
  have hupd_t : upd t = t' := by simp [hupd, ht']
  have hs1tasks : (complete_task_mark s t.tid r).tasks = s.tasks.map upd := rfl
  have ht'mem : t' ∈ (complete_task_mark s t.tid r).tasks := by
    rw [hs1tasks, ← hupd_t]
    exact List.mem_map_of_mem upd hmem
  -- the SELECT after the UPDATE finds exactly the updated row
  have hfind : (complete_task_mark s t.tid r).tasks.find?
      (fun u => u.tid == t.tid) = some t' := by
    cases hF : (complete_task_mark s t.tid r).tasks.find?
        (fun u => u.tid == t.tid) with
    | none =>
      exfalso
      have := List.find?_eq_none.mp hF t' ht'mem
      simp [ht'] at this
    | some row =>
      have hrowmem := List.mem_of_find?_eq_some hF
      have hrowtid : row.tid = t.tid := by
        have := List.find?_some hF
        simpa using this
      rw [hs1tasks] at hrowmem
      obtain ⟨v, hv, hvrow⟩ := List.mem_map.mp hrowmem
      have hvtid : v.tid = t.tid := by
        rw [← hrowtid, ← hvrow]
        exact (complete_task_mark_tid t.tid r v).symm ▸ rfl
      have hvt : v = t := eq_of_mem_nodup_tid hnodup hv hmem hvtid
      subst hvt
      rw [hupd_t] at hvrow
      rw [hvrow]
  -- unfold complete_task around the found row
  have hct : complete_task s t.tid r =
      complete_project_if_done
        (if (t'.featureId == "") = true
          then complete_task_mark s t.tid r
          else auto_complete_feature (complete_task_mark s t.tid r) t'.featureId)
        t'.projectId := by
    unfold complete_task
    dsimp only
    rw [hfind]
  have hXtasks : ((if (t'.featureId == "") = true
      then complete_task_mark s t.tid r
      else auto_complete_feature (complete_task_mark s t.tid r) t'.featureId)).tasks
      = s.tasks.map upd := by
    split
    · rfl
    · rw [auto_complete_feature_tasks]; rfl
  have hXprojects : ((if (t'.featureId == "") = true
      then complete_task_mark s t.tid r
      else auto_complete_feature (complete_task_mark s t.tid r) t'.featureId)).projects
      = s.projects := by
    split
    · rfl
    · rw [auto_complete_feature_projects]; rfl
  have hs2tasks : (complete_task s t.tid r).tasks = s.tasks.map upd := by
    rw [hct]
    unfold complete_project_if_done
    split
    · split
      · rfl
      · rfl
    · split
      · dsimp only
        rw [auto_complete_feature_tasks]
        rfl
      · rw [auto_complete_feature_tasks]
        rfl
  refine ⟨?_, ?_, ?_⟩
  · -- (a) the task row is completed and carries the result
    intro u hu hut
    rw [hs2tasks] at hu
    obtain ⟨v, hv, hvu⟩ := List.mem_map.mp hu
    by_cases hvt : v.tid == t.tid
    · rw [← hvu]
      have hv' : v.tid = t.tid := by simpa using hvt
      simp [hupd, hv']
    · exfalso
      rw [← hvu] at hut
      simp only [hupd] at hut
      rw [if_neg (by simpa using hvt)] at hut
      exact absurd hut (by simpa using hvt)
  · -- (b) feature auto-completion
    intro hfe hall
    have hfe' : (t'.featureId == "") = false := by
      simpa [ht'] using hfe
    have hcond : ((complete_task_mark s t.tid r).tasks.filter
        (fun u => u.featureId == t'.featureId && isUnfinished u.status)).length == 0 := by
      have : (complete_task_mark s t.tid r).tasks.filter
          (fun u => u.featureId == t'.featureId && isUnfinished u.status) = [] := by
        rw [List.filter_eq_nil]
        intro u hu
        rw [hs1tasks, ← hs2tasks] at hu
        by_cases hm : u.featureId = t.featureId
        · have := hall u hu hm
          simp [this, hm, ht']
        · simp [ht', hm]
      rw [this]
      rfl
    have hfeat : (complete_task s t.tid r).features =
        (complete_task_mark s t.tid r).features.map
          (fun f => if f.fid == t'.featureId then { f with status := "completed" } else f) := by
      rw [hct]
      have : (if (t'.featureId == "") = true
          then complete_task_mark s t.tid r
          else auto_complete_feature (complete_task_mark s t.tid r) t'.featureId)
          = auto_complete_feature (complete_task_mark s t.tid r) t'.featureId := by
        rw [if_neg]
        simp [hfe']
      rw [this]
      unfold complete_project_if_done
      have hfeat2 : (auto_complete_feature (complete_task_mark s t.tid r)
          t'.featureId).features = (complete_task_mark s t.tid r).features.map
          (fun f => if f.fid == t'.featureId then { f with status := "completed" } else f) := by
        unfold auto_complete_feature
        rw [if_neg (by simp [hfe'])]
        rw [if_pos hcond]
      split
      · exact hfeat2
      · exact hfeat2
    intro f hf hfid
    rw [hfeat] at hf
    obtain ⟨g, hg, hgf⟩ := List.mem_map.mp hf
    by_cases hgid : g.fid == t'.featureId
    · rw [← hgf]; simp [hgid]
    · exfalso
      rw [← hgf] at hfid
      rw [if_neg (by simpa using hgid)] at hfid
      exact absurd hfid (by simpa [ht'] using hgid)
  · -- (c) project auto-completion
    intro hall
    have hcond : (((if (t'.featureId == "") = true
        then complete_task_mark s t.tid r
        else auto_complete_feature (complete_task_mark s t.tid r) t'.featureId)).tasks.filter
        (fun u => u.projectId == t'.projectId && isUnfinished u.status)).length == 0 := by
      have : ((if (t'.featureId == "") = true
          then complete_task_mark s t.tid r
          else auto_complete_feature (complete_task_mark s t.tid r) t'.featureId)).tasks.filter
          (fun u => u.projectId == t'.projectId && isUnfinished u.status) = [] := by
        rw [List.filter_eq_nil]
        intro u hu
        rw [hXtasks, ← hs2tasks] at hu
        by_cases hm : u.projectId = t.projectId
        · have := hall u hu hm
          simp [this, hm, ht']
        · simp [ht', hm]
      rw [this]
      rfl
    have hproj : (complete_task s t.tid r).projects = s.projects.map
        (fun p => if p.pid == t'.projectId then { p with status := "completed" } else p) := by
      rw [hct]
      unfold complete_project_if_done
      rw [if_pos hcond]
      dsimp only
      rw [hXprojects]
    intro p hp hpid
    rw [hproj] at hp
    obtain ⟨q, hq, hqp⟩ := List.mem_map.mp hp
    by_cases hqid : q.pid == t'.projectId
    · rw [← hqp]; simp [hqid]
    · exfalso
      rw [← hqp] at hpid
      rw [if_neg (by simpa using hqid)] at hpid
      exact absurd hpid (by simpa [ht'] using hqid)

/-- Witness for C2: completing the last pending task of a one-task store
completes the task, its feature, and its project. -/
theorem complete_task_cascade_witness :
    (c2result.tasks.headD c2task).status = "completed" ∧
    (c2result.tasks.headD c2task).result = some "done" ∧
    (c2result.features.headD c2feat).status = "completed" ∧
    (c2result.projects.headD c2proj).status = "completed" := by
  have h := complete_task_cascade c2state c2task "done" (by decide) (by decide)
  have h1 := h.1 (c2result.tasks.headD c2task) (by decide) (by decide)
  have h2 := h.2.1 (by decide) (by decide)
    (c2result.features.headD c2feat) (by decide) (by decide)
  have h3 := h.2.2 (by decide) (c2result.projects.headD c2proj)
    (by decide) (by decide)
  exact ⟨h1.1, h1.2, h2, h3⟩

/-- C10: non-atomicity of `promote_idea`.  When an active project exists,
promoting a backlog idea raises the `ValueError` of `create_project` and
creates no project row — but the idea's status has already been persisted as
`promoted`, so the resulting state differs from the original state and the
idea no longer appears in the backlog listing. -/
theorem promote_idea_non_atomic (s : PMState) (idea : Idea)
    (newPid : String) (now : Nat)
    (hmem : idea ∈ s.ideas) (hback : idea.status = "backlog")
    (hact : (get_active_project s).isSome = true) :
    (∃ msg, (promote_idea s idea.iid newPid now).2 = Except.error msg) ∧
    (promote_idea s idea.iid newPid now).1.projects = s.projects ∧
    (∀ i ∈ (promote_idea s idea.iid newPid now).1.ideas,
      i.iid = idea.iid → i.status = "promoted") ∧
    (∀ i ∈ list_ideas (promote_idea s idea.iid newPid now).1, i.iid ≠ idea.iid) ∧
    (promote_idea s idea.iid newPid now).1 ≠ s := by
  have hfind : ∃ i0, s.ideas.find? (fun i => i.iid == idea.iid) = some i0 := by
    cases hF : s.ideas.find? (fun i => i.iid == idea.iid) with
    | none =>
      exfalso
      have := List.find?_eq_none.mp hF idea hmem
      simp at this
    | some i0 => exact ⟨i0, rfl⟩
  obtain ⟨i0, hi0⟩ := hfind
  set ideas1 : List Idea := s.ideas.map
    (fun i => if i.iid == idea.iid then { i with status := "promoted" } else i)
    with hideas1
  set s1 : PMState := { s with ideas := ideas1 } with hs1
  have hstep : promote_idea s idea.iid newPid now =
      create_project s1 i0.title i0.description "" i0.domain newPid now := by
    unfold promote_idea
    rw [hi0]
  have hactive1 : get_active_project s1 = get_active_project s := rfl
  obtain ⟨a, hA⟩ : ∃ a, get_active_project s = some a := by
    cases hA : get_active_project s with
    | none => rw [hA] at hact; simp at hact
    | some a => exact ⟨a, rfl⟩
  have hcreate : create_project s1 i0.title i0.description "" i0.domain newPid now
      = (s1, .error ("Active project already exists: '" ++ a.name
          ++ "'. Complete or pause it first (free tier: 1 project at a time).")) := by
    unfold create_project
    rw [hactive1, hA]
  have hideas : ∀ i ∈ s1.ideas, i.iid = idea.iid → i.status = "promoted" := by
    intro i hi hiid
    simp only [hs1] at hi
    obtain ⟨j, hj, hji⟩ := List.mem_map.mp hi
    by_cases hjid : j.iid == idea.iid
    · rw [← hji]; simp [hjid]
    · exfalso
      rw [← hji] at hiid
      rw [if_neg (by simpa using hjid)] at hiid
      exact absurd hiid (by simpa using hjid)
  refine ⟨⟨_, by rw [hstep, hcreate]⟩, by rw [hstep, hcreate], ?_, ?_, ?_⟩
  · intro i hi hiid
    rw [hstep, hcreate] at hi
    exact hideas i hi hiid
  · intro i hi
    rw [hstep, hcreate] at hi
    have hi' : i ∈ (s1.ideas.filter (fun j => j.status == "backlog")) := by
      unfold list_ideas at hi
      exact (List.Perm.mem_iff (List.perm_insertionSort _ _)).mp hi
    have himem := List.mem_of_mem_filter hi'
    have hback' : i.status = "backlog" := by
      have := List.of_mem_filter hi'
      simpa using this
    intro hiid
    have := hideas i himem hiid
    rw [this] at hback'
    exact absurd hback' (by decide)
  · intro hEq
    rw [hstep, hcreate] at hEq
    simp only at hEq
    have hidea' : idea ∈ s1.ideas := by rw [hEq]; exact hmem
    have := hideas idea hidea' rfl
    rw [hback] at this
    exact absurd this (by decide)

/-- Witness for C10: promoting the only backlog idea while a project is
active errors out, creates no project, yet leaves the idea promoted and the
backlog empty. -/
theorem promote_idea_non_atomic_witness :
    (∃ msg, (promote_idea c10state c10idea.iid "p2" 1).2 = Except.error msg) ∧
    (promote_idea c10state c10idea.iid "p2" 1).1.projects = c10state.projects ∧
    ((promote_idea c10state c10idea.iid "p2" 1).1.ideas.headD c10idea).status
      = "promoted" ∧
    list_ideas (promote_idea c10state c10idea.iid "p2" 1).1 = [] ∧
    (promote_idea c10state c10idea.iid "p2" 1).1 ≠ c10state := by
  have h := promote_idea_non_atomic c10state c10idea "p2" 1
    (by decide) (by decide) (by decide)
  refine ⟨h.1, h.2.1, ?_, by decide, h.2.2.2.2⟩
  exact h.2.2.1 _ (by decide) (by decide)

/-! ### Graduation lemmas (C5, C6) -/

/-- Unfolded form of `graduateFact`. -/
lemma graduateFact_eq (f : Fact) :
    graduateFact f =
      (if defaultedConf f ≥ 1 then f
       else if (gradStep f (defaultedConf f) (f.accessCount.getD 0)).1 ≠ defaultedConf f
             ∨ (if (gradStep f (defaultedConf f) (f.accessCount.getD 0)).1 < 1/2 then true
                else (gradStep f (defaultedConf f) (f.accessCount.getD 0)).2) = true
         then { f with
             confidence := some (gradStep f (defaultedConf f) (f.accessCount.getD 0)).1,
             needsReverify :=
               if (gradStep f (defaultedConf f) (f.accessCount.getD 0)).1 < 1/2 then true
               else f.needsReverify }
         else f) := rfl

/-- The Python `or 0.8` defaulting never yields 0. -/
lemma defaultedConf_ne_zero (f : Fact) : defaultedConf f ≠ 0 := by
  unfold defaultedConf
  cases f.confidence with
  | none => norm_num
  | some c =>
    by_cases hc : c = 0
    · simp [hc]
    · simp [hc]

/-- C6: permanent-fact exemption.  A fact with confidence 1.0 is skipped by
`run_graduation`: its confidence stays 1.0 and no field of the row is
mutated, regardless of age, access count, or staleness. -/
theorem permanent_fact_exempt (f : Fact) (h : f.confidence = some 1) :
    graduateFact f = f ∧ (graduateFact f).confidence = some 1 := by
  have hd : defaultedConf f = 1 := by
    unfold defaultedConf
    rw [h]
    norm_num
  have hg : graduateFact f = f := by
    rw [graduateFact_eq f, if_pos (by rw [hd])]
  exact ⟨hg, by rw [hg, h]⟩

/-- Witness for C6: a permanent fact aged 300 days and stale for 200 days is
returned untouched. -/
theorem permanent_fact_exempt_witness :
    graduateFact c6fact = c6fact ∧ (graduateFact c6fact).confidence = some 1 :=
  permanent_fact_exempt c6fact rfl

/-- Counterexample to C5 as stated: a stale fact (confidence 0.8, not
accessed for 200 days) decays to 0.7 on the first run and again to 0.6 on
the second run with no intervening change, so the second run does not leave
every fact with the confidence the first run produced. -/
theorem run_graduation_not_idempotent :
    (run_graduation (run_graduation [c5fact])).map Fact.confidence ≠
      (run_graduation [c5fact]).map Fact.confidence := by
  have hmax1 : max (0:ℚ) (7/10) = 7/10 := by norm_num
  have hround1 : round2 ((7:ℚ)/10) = 7/10 := by unfold round2; norm_num
  have hstep1 : graduateFact c5fact =
      ⟨"stale", some (7/10), some 0, 200, 200, false, false⟩ := by
    rw [graduateFact_eq]
    norm_num [defaultedConf, gradStep, c5fact, hmax1, hround1]
  have hmax2 : max (0:ℚ) (3/5) = 3/5 := by norm_num
  have hround2 : round2 ((3:ℚ)/5) = 3/5 := by unfold round2; norm_num
  have hstep2 : graduateFact ⟨"stale", some (7/10), some 0, 200, 200, false, false⟩ =
      ⟨"stale", some (3/5), some 0, 200, 200, false, false⟩ := by
    rw [graduateFact_eq]
    norm_num [defaultedConf, gradStep, hmax2, hround2]
  unfold run_graduation
  simp only [List.map_cons, List.map_nil, hstep1, hstep2]
  intro hEq
  norm_num at hEq

/-- A graduation run is idempotent on a non-stale row: second-run confidence
equals first-run confidence when `sinceAccessDays ≤ 180`. -/
lemma graduateFact_stable (f : Fact) (h : f.sinceAccessDays ≤ 180) :
    graduateFact (graduateFact f) = graduateFact f := by
  by_cases h1 : defaultedConf f ≥ 1
  · have hg : graduateFact f = f := by
      rw [graduateFact_eq f, if_pos h1]
    rw [hg, hg]
  · have hdecay : ¬(f.sinceAccessDays > 180 ∧ defaultedConf f < 1) := by
      intro hx
      omega
    by_cases hP1 : f.accessCount.getD 0 ≥ 10 ∧ f.ageDays > 90 ∧ f.contradicted = false
    · -- promoted to permanent
      have hgs : gradStep f (defaultedConf f) (f.accessCount.getD 0) = (1, true) := by
        unfold gradStep
        rw [if_pos hP1]
      have hgf : graduateFact f =
          { f with confidence := some 1, needsReverify := f.needsReverify } := by
        rw [graduateFact_eq f, if_neg h1, hgs]
        norm_num
      have hd2 : defaultedConf (graduateFact f) = 1 := by
        rw [hgf]
        unfold defaultedConf
        norm_num
      rw [graduateFact_eq (graduateFact f), if_pos (by rw [hd2])]
    · by_cases hP2 : f.accessCount.getD 0 ≥ 3 ∧ f.ageDays > 30 ∧
          f.contradicted = false ∧ defaultedConf f < 19/20
      · -- promoted to well-established
        have hgs : gradStep f (defaultedConf f) (f.accessCount.getD 0)
            = (19/20, true) := by
          unfold gradStep
          rw [if_neg hP1, if_pos hP2]
        have hgf : graduateFact f =
            { f with confidence := some (19/20), needsReverify := f.needsReverify } := by
          rw [graduateFact_eq f, if_neg h1, hgs]
          norm_num
        have hfe : (graduateFact f).accessCount = f.accessCount ∧
            (graduateFact f).ageDays = f.ageDays ∧
            (graduateFact f).sinceAccessDays = f.sinceAccessDays ∧
            (graduateFact f).contradicted = f.contradicted := by
          rw [hgf]
          exact ⟨rfl, rfl, rfl, rfl⟩
        have hd2 : defaultedConf (graduateFact f) = 19/20 := by
          rw [hgf]
          show (if (19/20 : ℚ) = 0 then (4:ℚ)/5 else 19/20) = 19/20
          norm_num
        have hgs2 : gradStep (graduateFact f) ((19:ℚ)/20)
            ((graduateFact f).accessCount.getD 0) = (19/20, false) := by
          unfold gradStep
          rw [hfe.1, hfe.2.1, hfe.2.2.1, hfe.2.2.2]
          rw [if_neg hP1]
          rw [if_neg (fun hx => absurd hx.2.2.2 (by norm_num))]
          rw [if_neg (fun hx => absurd hx.1 (by omega))]
        rw [graduateFact_eq (graduateFact f), hd2, hgs2,
          if_neg (by norm_num), if_neg (by norm_num)]
      · -- no rule fires (the decay rule is excluded by non-staleness)
        have hgs : gradStep f (defaultedConf f) (f.accessCount.getD 0)
            = (defaultedConf f, false) := by
          unfold gradStep
          rw [if_neg hP1, if_neg hP2, if_neg hdecay]
        by_cases hF : defaultedConf f < 1/2
        · -- only the re-verification flag fires
          have hgf : graduateFact f =
              { f with confidence := some (defaultedConf f), needsReverify := true } := by
            rw [graduateFact_eq f, if_neg h1, hgs]
            dsimp only
            rw [if_pos hF, if_pos hF, if_pos (Or.inr rfl)]
          have hfe : (graduateFact f).accessCount = f.accessCount ∧
              (graduateFact f).ageDays = f.ageDays ∧
              (graduateFact f).sinceAccessDays = f.sinceAccessDays ∧
              (graduateFact f).contradicted = f.contradicted := by
            rw [hgf]
            exact ⟨rfl, rfl, rfl, rfl⟩
          have hd2 : defaultedConf (graduateFact f) = defaultedConf f := by
            rw [hgf]
            show (if defaultedConf f = 0 then (4:ℚ)/5 else defaultedConf f)
              = defaultedConf f
            rw [if_neg (defaultedConf_ne_zero f)]
          have hgs2 : gradStep (graduateFact f) (defaultedConf f)
              ((graduateFact f).accessCount.getD 0) = (defaultedConf f, false) := by
            unfold gradStep
            rw [hfe.1, hfe.2.1, hfe.2.2.1, hfe.2.2.2]
            rw [if_neg hP1, if_neg hP2, if_neg hdecay]
          rw [graduateFact_eq (graduateFact f), hd2, if_neg h1, hgs2]
          dsimp only
          rw [if_pos hF, if_pos hF, if_pos (Or.inr rfl), hgf]
        · -- nothing fires at all: the row is not written
          have hgf : graduateFact f = f := by
            rw [graduateFact_eq f, if_neg h1, hgs]
            dsimp only
            rw [if_neg hF, if_neg hF]
            rw [if_neg (fun hx => hx.elim (fun hne => hne rfl) (fun hb => Bool.false_ne_true hb))]
          rw [hgf, hgf]

/-- C5 amended: graduation is idempotent on confidences for every fact whose
staleness is at most 180 days; stale facts with sub-1.0 confidence hit the
decay rule again on the second run and lose a further 0.1. -/
theorem run_graduation_idempotent_non_stale (facts : List Fact)
    (h : ∀ f ∈ facts, f.sinceAccessDays ≤ 180) :
    (run_graduation (run_graduation facts)).map Fact.confidence =
      (run_graduation facts).map Fact.confidence := by
  unfold run_graduation
  rw [List.map_map, List.map_map, List.map_map]
  apply List.map_congr_left
  intro f hf
  have := graduateFact_stable f (h f hf)
  simp only [Function.comp_apply, this]

/-- Witness for C5 (amended) on a promotable non-stale fact. -/
theorem run_graduation_idempotent_non_stale_witness :
    (run_graduation (run_graduation [c5fresh])).map Fact.confidence =
      (run_graduation [c5fresh]).map Fact.confidence :=
  run_graduation_idempotent_non_stale [c5fresh] (by decide)

/-! ### Memory store dedup (C3) -/

/-- Counterexample to C3 as stated: storing a text whose embedding has
cosine similarity 1 (≥ 0.95) to an existing row inserts nothing — as the
claim says — but the store is returned entirely unchanged: the matched
row's importance stays 0.5 instead of rising to 0.6 and its updated-at is
not touched; nor does any 0.85–0.95 band or `related_to` link exist in this
script (similarities above 0.9 are skipped, everything else is inserted
plainly). -/
theorem memory_store_dedup_counterexample :
    cosSimGE [1] [1] (19/20) = true ∧
    memoryStoreStep [c3row] "m2" "I prefer Python." [1] 5 1 = [c3row] ∧
    (memoryStoreStep [c3row] "m2" "I prefer Python." [1] 5 1).map
      MemRow.importance = [1/2] := by
  have hgt : cosSimGT [1] [1] (9/10) = true := by
    norm_num [cosSimGT, normSq, dot]
  have hskip : memoryStoreStep [c3row] "m2" "I prefer Python." [1] 5 1
      = [c3row] := by
    unfold memoryStoreStep
    rw [if_pos]
    simp [c3row, hgt]
  refine ⟨by norm_num [cosSimGE, normSq, dot], hskip, ?_⟩
  rw [hskip]
  rfl

/-- C3 amended: when one of the 50 most recent rows with a non-empty
embedding has cosine similarity strictly above 0.9 to the new embedding, no
row is inserted and the store is unchanged (no importance boost, no
updated-at change); otherwise a new row with the text, embedding and
importance/10 is appended.  No `related_to` link is ever created by the
script. -/
theorem memory_store_dedup (rows : List MemRow) (newId text : String)
    (emb : List ℚ) (importance : ℚ) (now : Nat) :
    ((∃ r ∈ (rows.insertionSort (fun a b => b.createdAt ≤ a.createdAt)).take 50,
        ∃ e, r.embedding = some e ∧ e ≠ [] ∧ cosSimGT emb e (9/10) = true) →
      memoryStoreStep rows newId text emb importance now = rows) ∧
    ((∀ r ∈ (rows.insertionSort (fun a b => b.createdAt ≤ a.createdAt)).take 50,
        ∀ e, r.embedding = some e → e ≠ [] → cosSimGT emb e (9/10) = false) →
      memoryStoreStep rows newId text emb importance now
        = rows ++ [⟨newId, text, some emb, importance / 10, now⟩]) := by
  constructor
  · intro ⟨r, hr, e, he, hne, hgt⟩
    unfold memoryStoreStep
    rw [if_pos]
    rw [List.any_eq_true]
    refine ⟨r, hr, ?_⟩
    rw [he]
    simp [hne, hgt]
  · intro hall
    unfold memoryStoreStep
    rw [if_neg]
    rw [List.any_eq_true]
    rintro ⟨r, hr, hp⟩
    cases he : r.embedding with
    | none => rw [he] at hp; simp at hp
    | some e =>
      rw [he] at hp
      dsimp only at hp
      rw [Bool.and_eq_true] at hp
      by_cases hne : e = []
      · subst hne
        simp at hp
      · have hfalse := hall r hr e he hne
        rw [hfalse] at hp
        exact Bool.false_ne_true hp.2

/-- Witness for C3 (amended): an exact duplicate is skipped with the store
unchanged; an orthogonal embedding is appended as a new row. -/
theorem memory_store_dedup_witness :
    memoryStoreStep [c3row] "m2" "t2" [1] 5 1 = [c3row] ∧
    memoryStoreStep [c3rowB] "m2" "t2" [0, 1] 5 1
      = [c3rowB] ++ [⟨"m2", "t2", some [0, 1], (5:ℚ) / 10, 1⟩] := by
  constructor
  · refine (memory_store_dedup [c3row] "m2" "t2" [1] 5 1).1
      ⟨c3row, ?_, [1], rfl, by simp, by norm_num [cosSimGT, normSq, dot]⟩
    simp [List.insertionSort, List.orderedInsert]
  · refine (memory_store_dedup [c3rowB] "m2" "t2" [0, 1] 5 1).2 ?_
    intro r hr e he hne
    have hr' : r = c3rowB := by
      simpa [List.insertionSort, List.orderedInsert] using hr
    subst hr'
    have he' : some e = some [(1:ℚ), 0] := by rw [← he]; rfl
    have he2 : e = [(1:ℚ), 0] := Option.some.inj he'
    subst he2
    norm_num [cosSimGT, normSq, dot]

/-! ### Message bus update_status (C7) -/

/-- Counterexample to C7 as stated: with two rows of task `t` in the queue,
`update_status` overwrites the earlier (lower-id) row too — its status
moves from pending to completed and its updated-at is re-stamped, while the
claim says earlier rows keep their fields. -/
theorem bus_update_status_counterexample :
    ((update_status c7bus "t" "completed" none none "t1").headD c7row1).status
      = "completed" ∧
    c7row1.status = "pending" ∧
    c7row1.rid < c7row2.rid ∧
    get_task c7bus "t" = some c7row2 := by
  refine ⟨rfl, rfl, by decide, by decide⟩

/-- C7 amended: `update_status` overwrites status, result, error and
updated-at on every row whose task_id matches, and leaves rows with any
other task_id untouched. -/
theorem bus_update_status_updates_all_rows (bus : List BusRow)
    (taskId status : String) (result error : Option String) (now : String)
    (i : Nat) (h : i < bus.length) :
    ∃ hlen : (update_status bus taskId status result error now).length
        = bus.length,
      ((bus.get ⟨i, h⟩).taskId = taskId →
        (update_status bus taskId status result error now).get
            ⟨i, by rw [hlen]; exact h⟩ =
          { bus.get ⟨i, h⟩ with
            status := status
            result := result
            error := error
            updatedAt := now }) ∧
      ((bus.get ⟨i, h⟩).taskId ≠ taskId →
        (update_status bus taskId status result error now).get
            ⟨i, by rw [hlen]; exact h⟩ = bus.get ⟨i, h⟩) := by
  refine ⟨List.length_map bus _, ?_, ?_⟩
  · intro ht
    unfold update_status
    rw [List.get_map]
    rw [if_pos (by simpa using ht)]
  · intro ht
    unfold update_status
    rw [List.get_map]
    rw [if_neg (by simpa using ht)]

/-- Witness for C7 (amended) on the concrete two-row queue: the earlier
matching row is overwritten, a non-matching row would be left alone. -/
theorem bus_update_status_updates_all_rows_witness :
    (update_status c7bus "t" "completed" none none "t1").get
        ⟨0, by decide⟩ =
      { c7row1 with
        status := "completed"
        result := none
        error := none
        updatedAt := "t1" } := by
  obtain ⟨hlen, hmatch, _⟩ :=
    bus_update_status_updates_all_rows c7bus "t" "completed" none none "t1"
      0 (by decide)
  exact hmatch (by decide)

/-! ### LLM transient-error policy (C8) -/

/-- Counterexample to C8 as stated: HTTP 504 is a 5xx status, but the
resilience wrapper consumes a single call — the `elif status in (500, 502,
503)` arm does not cover it, so the error record is returned immediately
with no retry. -/
theorem llm_5xx_retry_counterexample : ¬ retriesEvery5xxOnce "anthropic" := by
  intro h
  have h2 := h 504 (by norm_num) (by norm_num) (CallOutcome.ok "y") []
  have h1 : (callWithResilience "anthropic"
      [CallOutcome.httpError 504, CallOutcome.ok "y"]).2 = 1 := rfl
  rw [h1] at h2
  exact absurd h2 (by norm_num)

/-- C8 amended: only HTTP 500, 502 and 503 get the single retry after 3s
(a success on retry is returned, any second failure yields a structured
error record rather than an exception); every other 5xx status yields an
immediate error record with no retry. -/
theorem llm_5xx_retry_policy (provider : String) (code : Nat)
    (next : CallOutcome) (rest : List CallOutcome)
    (h5 : 500 ≤ code ∧ code ≤ 599) :
    ((code = 500 ∨ code = 502 ∨ code = 503) →
      (callWithResilience provider (.httpError code :: next :: rest)).2 = 2 ∧
      (∀ c, next = CallOutcome.ok c →
        (callWithResilience provider (.httpError code :: next :: rest)).1
          = .success c) ∧
      ((∀ c, next ≠ CallOutcome.ok c) →
        ∃ msg, (callWithResilience provider (.httpError code :: next :: rest)).1
          = .errorRec msg)) ∧
    (¬(code = 500 ∨ code = 502 ∨ code = 503) →
      (callWithResilience provider (.httpError code :: next :: rest)).2 = 1 ∧
      ∃ msg, (callWithResilience provider (.httpError code :: next :: rest)).1
        = .errorRec msg) := by
  have h401 : ¬(code = 401) := by omega
  have h429 : ¬(code = 429) := by omega
  constructor
  · intro h3
    unfold callWithResilience
    dsimp only
    rw [if_neg h401, if_neg h429, if_pos h3]
    cases next with
    | ok c =>
      refine ⟨rfl, ?_, ?_⟩
      · intro d hd
        cases hd
        rfl
      · intro hno
        exact absurd rfl (hno c)
    | httpError s =>
      refine ⟨rfl, ?_, ?_⟩
      · intro d hd
        cases hd
      · intro hno
        exact ⟨_, rfl⟩
    | timeoutAsync =>
      refine ⟨rfl, ?_, ?_⟩
      · intro d hd
        cases hd
      · intro hno
        exact ⟨_, rfl⟩
    | timeoutHttpx =>
      refine ⟨rfl, ?_, ?_⟩
      · intro d hd
        cases hd
      · intro hno
        exact ⟨_, rfl⟩
    | exc m =>
      refine ⟨rfl, ?_, ?_⟩
      · intro d hd
        cases hd
      · intro hno
        exact ⟨_, rfl⟩
  · intro h3
    unfold callWithResilience
    dsimp only
    rw [if_neg h401, if_neg h429, if_neg h3]
    exact ⟨rfl, ⟨_, rfl⟩⟩

/-- Witness for C8 (amended): a 502 followed by a second failure consumes
two calls and returns an error record; a 504 fails immediately in one. -/
theorem llm_5xx_retry_policy_witness :
    (callWithResilience "anthropic"
      [CallOutcome.httpError 502, CallOutcome.httpError 500]).2 = 2 ∧
    (∃ msg, (callWithResilience "anthropic"
      [CallOutcome.httpError 502, CallOutcome.httpError 500]).1
        = LLMResult.errorRec msg) ∧
    (callWithResilience "anthropic"
      [CallOutcome.httpError 504, CallOutcome.ok "y"]).2 = 1 ∧
    (∃ msg, (callWithResilience "anthropic"
      [CallOutcome.httpError 504, CallOutcome.ok "y"]).1
        = LLMResult.errorRec msg) := by
  have hA := (llm_5xx_retry_policy "anthropic" 502 (CallOutcome.httpError 500)
    [] (by norm_num)).1 (by norm_num)
  have hB := (llm_5xx_retry_policy "anthropic" 504 (CallOutcome.ok "y")
    [] (by norm_num)).2 (by norm_num)
  exact ⟨hA.1, hA.2.2 (fun c hc => by cases hc), hB.1, hB.2⟩

/-! ### Fail-open verification (C9) -/

/-- C9: fail-open verification.  Whenever the verifier or guardian
delegation fails (success = false or empty output) or its output is not a
JSON object containing a "verdict" key, both post-processors substitute a
verdict of PASS, so the task pipeline proceeds as if review succeeded. -/
theorem fail_open_verification (res : DelegationResult) (parsed : Option Json)
    (h : res.success = false ∨ resultTruthy res.result = false ∨
      ∀ p, parsed = some p → (p.isObj && p.hasKey "verdict") = false) :
    (delegate_to_verifier_verdict res parsed).get? "verdict"
      = some (Json.str "PASS") ∧
    (delegate_to_guardian_verdict res parsed).get? "verdict"
      = some (Json.str "PASS") := by
  by_cases hb : (res.success && resultTruthy res.result) = true
  · have hp : ∀ p, parsed = some p → (p.isObj && p.hasKey "verdict") = false := by
      rcases h with h | h | h
      · rw [Bool.and_eq_true] at hb
        rw [hb.1] at h
        cases h
      · rw [Bool.and_eq_true] at hb
        rw [hb.2] at h
        cases h
      · exact h
    unfold delegate_to_verifier_verdict delegate_to_guardian_verdict
    rw [if_pos hb, if_pos hb]
    cases parsed with
    | none => exact ⟨rfl, rfl⟩
    | some p =>
      dsimp only
      rw [if_neg (by rw [hp p rfl]; exact Bool.false_ne_true),
        if_neg (by rw [hp p rfl]; exact Bool.false_ne_true)]
      exact ⟨rfl, rfl⟩
  · unfold delegate_to_verifier_verdict delegate_to_guardian_verdict
    rw [if_neg hb, if_neg hb]
    exact ⟨rfl, rfl⟩

/-- Witness for C9: a failed verifier delegation (success=false) and a
successful one whose output is a bare string both yield verdict PASS. -/
theorem fail_open_verification_witness :
    (delegate_to_verifier_verdict ⟨false, none, some "spawn timeout"⟩ none).get?
      "verdict" = some (Json.str "PASS") ∧
    (delegate_to_guardian_verdict ⟨true, some "looks fine to me", none⟩
      (some (Json.str "looks fine to me"))).get? "verdict"
      = some (Json.str "PASS") :=
  ⟨(fail_open_verification ⟨false, none, some "spawn timeout"⟩ none
      (Or.inl rfl)).1,
   (fail_open_verification ⟨true, some "looks fine to me", none⟩
      (some (Json.str "looks fine to me"))
      (Or.inr (Or.inr (fun p hp => by cases hp; rfl)))).2⟩

/-! ### DAG layer assignment (C4) -/

/-- Counterexample to C4 as stated: a single subtask depending on itself
closes a dependency cycle, yet it is placed in layer 1 (the re-entry
returns 0 as the dependency's contribution and the task itself gets
`max + 1`); layer 0 comes out empty, contradicting "the cycle-closing task
is placed in layer 0". -/
theorem dag_cycle_closer_counterexample :
    build_execution_layers [[0]] = [[], [0]] ∧
    0 ∉ (build_execution_layers [[0]]).getD 0 [] ∧
    0 ∈ (build_execution_layers [[0]]).getD 1 [] := by
  refine ⟨by decide, by decide, by decide⟩

/-- `getD` after `set` at the written index. -/
lemma getD_set_self : ∀ (l : List Int) (i : Nat) (v : Int), i < l.length →
    (l.set i v).getD i (-1) = v := by
  intro l
  induction l with
  | nil => intro i v h; simp at h
  | cons a t ih =>
    intro i v h
    cases i with
    | zero => rfl
    | succ k =>
      show (t.set k v).getD k (-1) = v
      exact ih k v (by simpa using h)

/-- `getD` after `set` elsewhere. -/
lemma getD_set_ne : ∀ (l : List Int) (i j : Nat) (v : Int), j ≠ i →
    (l.set i v).getD j (-1) = l.getD j (-1) := by
  intro l
  induction l with
  | nil => intro i j v _; rfl
  | cons a t ih =>
    intro i j v h
    cases i with
    | zero =>
      cases j with
      | zero => exact absurd rfl h
      | succ m => rfl
    | succ k =>
      cases j with
      | zero => rfl
      | succ m =>
        show (t.set k v).getD m (-1) = t.getD m (-1)
        exact ih k m v (fun he => h (by rw [he]))

/-- A duplicate-free list of naturals below `n` has at most `n` elements. -/
lemma nodup_lt_length_le (l : List Nat) (n : Nat) (hnd : l.Nodup)
    (hlt : ∀ j ∈ l, j < n) : l.length ≤ n := by
  have h1 : l.toFinset.card = l.length := List.toFinset_card_of_nodup hnd
  have h2 : l.toFinset ⊆ Finset.range n := by
    intro x hx
    rw [List.mem_toFinset] at hx
    rw [Finset.mem_range]
    exact hlt x hx
  have h3 := Finset.card_le_card h2
  rw [Finset.card_range, h1] at h3
  exact h3

/-- Applying the named fold body. -/
lemma alStep_apply (subtasks : List (List Int)) (fuel idx : Nat)
    (visited : List Nat) (acc : List Int × Int) (d : Int) :
    alStep subtasks fuel idx visited acc d =
      (if 0 ≤ d ∧ d < (subtasks.length : Int) then
        ((assignLayer subtasks fuel d.toNat (idx :: visited) acc.1).1,
         max acc.2 (assignLayer subtasks fuel d.toNat (idx :: visited) acc.1).2)
      else acc) := rfl

/-- The one-step unfolding of `assignLayer` at positive fuel. -/
lemma assignLayer_succ (subtasks : List (List Int)) (fuel idx : Nat)
    (visited : List Nat) (layers : List Int) :
    assignLayer subtasks (fuel + 1) idx visited layers =
      (if 0 ≤ layers.getD idx (-1) then (layers, layers.getD idx (-1))
       else if idx ∈ visited then (layers, 0)
       else if subtasks.getD idx [] = [] then (layers.set idx 0, 0)
       else
         (((subtasks.getD idx []).foldl
             (alStep subtasks fuel idx visited) (layers, 0)).1.set idx
           (((subtasks.getD idx []).foldl
             (alStep subtasks fuel idx visited) (layers, 0)).2 + 1),
          ((subtasks.getD idx []).foldl
             (alStep subtasks fuel idx visited) (layers, 0)).2 + 1)) := rfl

/-- `assignLayer` preserves the array's length and never rewrites an entry
that is already assigned (≥ 0). -/
lemma assignLayer_frame (subtasks : List (List Int)) :
    ∀ (fuel idx : Nat) (visited : List Nat) (layers : List Int),
      (assignLayer subtasks fuel idx visited layers).1.length = layers.length ∧
      ∀ j, 0 ≤ layers.getD j (-1) →
        (assignLayer subtasks fuel idx visited layers).1.getD j (-1)
          = layers.getD j (-1) := by
  intro fuel
  induction fuel with
  | zero =>
    intro idx visited layers
    exact ⟨rfl, fun j _ => rfl⟩
  | succ fuel ih =>
    intro idx visited layers
    rw [assignLayer_succ]
    by_cases h1 : 0 ≤ layers.getD idx (-1)
    · rw [if_pos h1]
      exact ⟨rfl, fun j _ => rfl⟩
    · rw [if_neg h1]
      by_cases h2 : idx ∈ visited
      · rw [if_pos h2]
        exact ⟨rfl, fun j _ => rfl⟩
      · rw [if_neg h2]
        by_cases h3 : subtasks.getD idx [] = []
        · rw [if_pos h3]
          refine ⟨by simp, ?_⟩
          intro j hj
          have hne : j ≠ idx := fun he => h1 (he ▸ hj)
          exact getD_set_ne layers idx j 0 hne
        · rw [if_neg h3]
          have hfold : ∀ (ds : List Int) (acc : List Int × Int),
              (ds.foldl (alStep subtasks fuel idx visited) acc).1.length
                = acc.1.length ∧
              ∀ j, 0 ≤ acc.1.getD j (-1) →
                (ds.foldl (alStep subtasks fuel idx visited) acc).1.getD j (-1)
                  = acc.1.getD j (-1) := by
            intro ds
            induction ds with
            | nil => intro acc; exact ⟨rfl, fun j _ => rfl⟩
            | cons d dt ihd =>
              intro acc
              rw [List.foldl_cons, alStep_apply]
              by_cases hd : 0 ≤ d ∧ d < (subtasks.length : Int)
              · rw [if_pos hd]
                obtain ⟨hl1, hp1⟩ := ih d.toNat (idx :: visited) acc.1
                obtain ⟨hl2, hp2⟩ := ihd
                  ((assignLayer subtasks fuel d.toNat (idx :: visited) acc.1).1,
                   max acc.2 (assignLayer subtasks fuel d.toNat (idx :: visited) acc.1).2)
                refine ⟨by rw [hl2]; exact hl1, ?_⟩
                intro j hj
                have hmid := hp1 j hj
                have := hp2 j (by rw [hmid]; exact hj)
                rw [this, hmid]
              · rw [if_neg hd]
                exact ihd acc
          obtain ⟨hfl, hfp⟩ := hfold (subtasks.getD idx []) (layers, 0)
          constructor
          · show ((_ : List Int).set idx _).length = layers.length
            rw [List.length_set]
            exact hfl
          · intro j hj
            have hne : j ≠ idx := fun he => h1 (he ▸ hj)
            show ((_ : List Int).set idx _).getD j (-1) = layers.getD j (-1)
            rw [getD_set_ne _ idx j _ hne]
            exact hfp j hj

/-- The dependency fold preserves the array's length. -/
lemma alStep_fold_length (subtasks : List (List Int)) (fuel idx : Nat)
    (visited : List Nat) :
    ∀ (ds : List Int) (acc : List Int × Int),
      (ds.foldl (alStep subtasks fuel idx visited) acc).1.length
        = acc.1.length := by
  intro ds
  induction ds with
  | nil => intro acc; rfl
  | cons d dt ihd =>
    intro acc
    rw [List.foldl_cons, alStep_apply]
    by_cases hd : 0 ≤ d ∧ d < (subtasks.length : Int)
    · rw [if_pos hd, ihd]
      exact (assignLayer_frame subtasks fuel d.toNat (idx :: visited) acc.1).1
    · rw [if_neg hd]
      exact ihd acc

/-- The `max_dep_layer` accumulator never decreases along the fold. -/
lemma alStep_fold_snd_le (subtasks : List (List Int)) (fuel idx : Nat)
    (visited : List Nat) :
    ∀ (ds : List Int) (acc : List Int × Int),
      acc.2 ≤ (ds.foldl (alStep subtasks fuel idx visited) acc).2 := by
  intro ds
  induction ds with
  | nil => intro acc; exact le_refl _
  | cons d dt ihd =>
    intro acc
    rw [List.foldl_cons, alStep_apply]
    by_cases hd : 0 ≤ d ∧ d < (subtasks.length : Int)
    · rw [if_pos hd]
      exact le_trans (le_max_left _ _)
        (ihd ((assignLayer subtasks fuel d.toNat (idx :: visited) acc.1).1,
          max acc.2 (assignLayer subtasks fuel d.toNat (idx :: visited) acc.1).2))
    · rw [if_neg hd]
      exact ihd acc

/-- `assign_layer` always leaves its own index assigned (≥ 0) when called
with enough fuel on an unvisited in-range index — no task is dropped. -/
lemma assignLayer_assigns (subtasks : List (List Int)) (fuel idx : Nat)
    (visited : List Nat) (layers : List Int)
    (hidx : idx < subtasks.length) (hmem : idx ∉ visited)
    (hnd : visited.Nodup) (hvlt : ∀ j ∈ visited, j < subtasks.length)
    (hfuel : subtasks.length + 1 ≤ fuel + visited.length)
    (hlen : layers.length = subtasks.length) :
    0 ≤ (assignLayer subtasks fuel idx visited layers).1.getD idx (-1) := by
  cases fuel with
  | zero =>
    exfalso
    have := nodup_lt_length_le visited subtasks.length hnd hvlt
    omega
  | succ fuel =>
    rw [assignLayer_succ]
    by_cases h1 : 0 ≤ layers.getD idx (-1)
    · rw [if_pos h1]
      exact h1
    · rw [if_neg h1, if_neg hmem]
      by_cases h3 : subtasks.getD idx [] = []
      · rw [if_pos h3]
        rw [getD_set_self layers idx 0 (by omega)]
      · rw [if_neg h3]
        have hflen := alStep_fold_length subtasks fuel idx visited
          (subtasks.getD idx []) (layers, 0)
        rw [getD_set_self _ idx _ (by rw [hflen]; simpa using by omega)]
        have hsnd := alStep_fold_snd_le subtasks fuel idx visited
          (subtasks.getD idx []) (layers, 0)
        simp only at hsnd
        omega

/-- The `depMax` fold dominates its start value and every in-range member's
layer. -/
lemma depMax_fold_le (subtasks : List (List Int)) (f : Nat → Nat) :
    ∀ (ds : List Int) (m : Nat),
      m ≤ ds.foldl (fun m d =>
        if 0 ≤ d ∧ d < (subtasks.length : Int) then max m (f d.toNat) else m) m ∧
      ∀ d ∈ ds, 0 ≤ d → d < (subtasks.length : Int) →
        f d.toNat ≤ ds.foldl (fun m d =>
          if 0 ≤ d ∧ d < (subtasks.length : Int) then max m (f d.toNat) else m) m := by
  intro ds
  induction ds with
  | nil => intro m; exact ⟨le_refl m, by simp⟩
  | cons d dt ih =>
    intro m
    rw [List.foldl_cons]
    by_cases hd : 0 ≤ d ∧ d < (subtasks.length : Int)
    · rw [if_pos hd]
      obtain ⟨h1, h2⟩ := ih (max m (f d.toNat))
      refine ⟨le_trans (le_max_left _ _) h1, ?_⟩
      intro e he h0 hn
      rcases List.mem_cons.mp he with rfl | he'
      · exact le_trans (le_max_right _ _) h1
      · exact h2 e he' h0 hn
    · rw [if_neg hd]
      obtain ⟨h1, h2⟩ := ih m
      refine ⟨h1, ?_⟩
      intro e he h0 hn
      rcases List.mem_cons.mp he with rfl | he'
      · exact absurd ⟨h0, hn⟩ hd
      · exact h2 e he' h0 hn

/-- The integer version of the `depMax` fold agrees with the natural one. -/
lemma depMax_fold_int (subtasks : List (List Int)) (f : Nat → Nat) :
    ∀ (ds : List Int) (m : Nat),
      ds.foldl (fun (m : Int) d =>
          if 0 ≤ d ∧ d < (subtasks.length : Int) then max m ((f d.toNat : Int))
          else m) (m : Int)
        = ((ds.foldl (fun m d =>
            if 0 ≤ d ∧ d < (subtasks.length : Int) then max m (f d.toNat)
            else m) m : Nat) : Int) := by
  intro ds
  induction ds with
  | nil => intro m; rfl
  | cons d dt ih =>
    intro m
    rw [List.foldl_cons, List.foldl_cons]
    by_cases hd : 0 ≤ d ∧ d < (subtasks.length : Int)
    · rw [if_pos hd, if_pos hd, ← Nat.cast_max]
      exact ih (max m (f d.toNat))
    · rw [if_neg hd, if_neg hd]
      exact ih m

/-- On an acyclic dependency graph — one admitting a layer function `f` per
`LayerSpec` — `assign_layer` returns exactly `f idx` and only ever writes
`f`-values into the array. -/
lemma assignLayer_correct (subtasks : List (List Int)) (f : Nat → Nat)
    (hspec : LayerSpec subtasks f) :
    ∀ (fuel idx : Nat) (visited : List Nat) (layers : List Int),
      idx < subtasks.length →
      (∀ j ∈ visited, j < subtasks.length) →
      (∀ j ∈ visited, f idx < f j) →
      visited.Nodup →
      layers.length = subtasks.length →
      (∀ j, j < subtasks.length → 0 ≤ layers.getD j (-1) →
        layers.getD j (-1) = (f j : Int)) →
      subtasks.length + 1 ≤ fuel + visited.length →
      (assignLayer subtasks fuel idx visited layers).2 = (f idx : Int) ∧
      (∀ j, j < subtasks.length →
        0 ≤ (assignLayer subtasks fuel idx visited layers).1.getD j (-1) →
        (assignLayer subtasks fuel idx visited layers).1.getD j (-1)
          = (f j : Int)) := by
  intro fuel
  induction fuel with
  | zero =>
    intro idx visited layers _ hvlt _ hnd _ _ hfuel
    exfalso
    have := nodup_lt_length_le visited subtasks.length hnd hvlt
    omega
  | succ fuel ih =>
    intro idx visited layers hidx hvlt hvf hnd hlen hinv hfuel
    have hmem : idx ∉ visited := fun hm => absurd (hvf idx hm) (lt_irrefl _)
    rw [assignLayer_succ]
    by_cases h1 : 0 ≤ layers.getD idx (-1)
    · rw [if_pos h1]
      exact ⟨hinv idx hidx h1, hinv⟩
    · rw [if_neg h1, if_neg hmem]
      by_cases h3 : subtasks.getD idx [] = []
      · rw [if_pos h3]
        have hf0 : f idx = 0 := by
          have := hspec idx hidx
          rw [if_pos h3] at this
          exact this
        refine ⟨by rw [hf0]; rfl, ?_⟩
        intro j hj hpos
        by_cases hji : j = idx
        · subst hji
          rw [getD_set_self layers j 0 (by omega)]
          rw [hf0]
          rfl
        · rw [getD_set_ne layers idx j 0 hji] at hpos ⊢
          exact hinv j hj hpos
      · rw [if_neg h3]
        have hfidx : f idx = depMax subtasks f (subtasks.getD idx []) + 1 := by
          have := hspec idx hidx
          rw [if_neg h3] at this
          exact this
        -- each in-range dependency has a strictly smaller layer
        have hdeplt : ∀ d ∈ subtasks.getD idx [], 0 ≤ d →
            d < (subtasks.length : Int) → f d.toNat < f idx := by
          intro d hd h0 hn
          have := (depMax_fold_le subtasks f (subtasks.getD idx []) 0).2 d hd h0 hn
          unfold depMax at hfidx
          omega
        -- the dependency fold: array invariant plus the accumulator value
        have hfold : ∀ (ds : List Int),
            (∀ d ∈ ds, d ∈ subtasks.getD idx []) →
            ∀ (acc : List Int × Int),
            acc.1.length = subtasks.length →
            (∀ j, j < subtasks.length → 0 ≤ acc.1.getD j (-1) →
              acc.1.getD j (-1) = (f j : Int)) →
            (ds.foldl (alStep subtasks fuel idx visited) acc).1.length
              = subtasks.length ∧
            (∀ j, j < subtasks.length →
              0 ≤ (ds.foldl (alStep subtasks fuel idx visited) acc).1.getD j (-1) →
              (ds.foldl (alStep subtasks fuel idx visited) acc).1.getD j (-1)
                = (f j : Int)) ∧
            (ds.foldl (alStep subtasks fuel idx visited) acc).2
              = ds.foldl (fun (m : Int) d =>
                  if 0 ≤ d ∧ d < (subtasks.length : Int)
                  then max m ((f d.toNat : Int)) else m) acc.2 := by
          intro ds
          induction ds with
          | nil =>
            intro _ acc hal hai
            exact ⟨hal, hai, rfl⟩
          | cons d dt ihd =>
            intro hsub acc hal hai
            rw [List.foldl_cons, List.foldl_cons, alStep_apply]
            by_cases hd : 0 ≤ d ∧ d < (subtasks.length : Int)
            · rw [if_pos hd, if_pos hd]
              have hdn : d.toNat < subtasks.length := by omega
              have hrec := ih d.toNat (idx :: visited) acc.1 hdn
                (by
                  intro j hj
                  rcases List.mem_cons.mp hj with rfl | hj'
                  · exact hidx
                  · exact hvlt j hj')
                (by
                  intro j hj
                  rcases List.mem_cons.mp hj with rfl | hj'
                  · exact hdeplt d (hsub d (List.mem_cons_self _ _)) hd.1 hd.2
                  · exact lt_trans
                      (hdeplt d (hsub d (List.mem_cons_self _ _)) hd.1 hd.2)
                      (hvf j hj'))
                (List.Nodup.cons hmem hnd)
                hal hai (by simp; omega)
              have hq2 := hrec.1
              refine ?_
              have := ihd (fun e he => hsub e (List.mem_cons_of_mem _ he))
                ((assignLayer subtasks fuel d.toNat (idx :: visited) acc.1).1,
                 max acc.2 (assignLayer subtasks fuel d.toNat (idx :: visited) acc.1).2)
                (by
                  show (assignLayer subtasks fuel d.toNat (idx :: visited) acc.1).1.length = _
                  rw [(assignLayer_frame subtasks fuel d.toNat (idx :: visited) acc.1).1]
                  exact hal)
                (by
                  intro j hj hpos
                  exact hrec.2 j hj hpos)
              refine ⟨this.1, this.2.1, ?_⟩
              rw [this.2.2]
              show _ = List.foldl _ (max acc.2 ((f d.toNat : Int))) dt
              rw [hq2]
            · rw [if_neg hd, if_neg hd]
              exact ihd (fun e he => hsub e (List.mem_cons_of_mem _ he)) acc hal hai
        obtain ⟨hRl, hRi, hR2⟩ := hfold (subtasks.getD idx []) (fun d hd => hd)
          (layers, 0) hlen hinv
        have hR2' : ((subtasks.getD idx []).foldl
            (alStep subtasks fuel idx visited) (layers, 0)).2
            = (depMax subtasks f (subtasks.getD idx []) : Int) := by
          rw [hR2]
          show List.foldl _ ((0 : Nat) : Int) _ = _
          rw [depMax_fold_int subtasks f (subtasks.getD idx []) 0]
          rfl
        constructor
        · show _ + 1 = (f idx : Int)
          rw [hR2', hfidx]
          push_cast
          ring
        · intro j hj hpos
          by_cases hji : j = idx
          · subst hji
            rw [getD_set_self _ j _ (by rw [hRl]; omega)]
            rw [hR2', hfidx]
            push_cast
            ring
          · rw [getD_set_ne _ idx j _ hji] at hpos ⊢
            exact hRi j hj hpos

/-- `getD` on the all-(-1) initial array is always -1. -/
lemma getD_replicate_neg : ∀ (n k : Nat),
    (List.replicate n (-1 : Int)).getD k (-1) = -1 := by
  intro n
  induction n with
  | zero => intro k; rfl
  | succ m ih =>
    intro k
    cases k with
    | zero => rfl
    | succ j => exact ih j

/-- Fold of `max` dominates its start and every member. -/
lemma le_foldl_max : ∀ (l : List Int) (a : Int),
    a ≤ l.foldl max a ∧ ∀ x ∈ l, x ≤ l.foldl max a := by
  intro l
  induction l with
  | nil => intro a; exact ⟨le_refl a, by simp⟩
  | cons b t ih =>
    intro a
    rw [List.foldl_cons]
    obtain ⟨h1, h2⟩ := ih (max a b)
    refine ⟨le_trans (le_max_left a b) h1, ?_⟩
    intro x hx
    rcases List.mem_cons.mp hx with rfl | hx'
    · exact le_trans (le_max_right a x) h1
    · exact h2 x hx'

/-- An in-bounds `getD` is a member of the list. -/
lemma getD_mem : ∀ (l : List Int) (j : Nat), j < l.length → l.getD j (-1) ∈ l := by
  intro l
  induction l with
  | nil => intro j h; simp at h
  | cons a t ih =>
    intro j h
    cases j with
    | zero => exact List.mem_cons_self _ _
    | succ k =>
      exact List.mem_cons_of_mem _ (ih k (by simpa using h))

/-- Every entry of `layers_assigned` is bounded by the computed maximum. -/
lemma le_maxAssigned (subtasks : List (List Int)) :
    ∀ y ∈ assignedLayers subtasks, y ≤ maxAssigned subtasks := by
  intro y hy
  unfold maxAssigned
  cases hc : assignedLayers subtasks with
  | nil =>
    rw [hc] at hy
    cases hy
  | cons x xs =>
    rw [hc] at hy
    dsimp only
    rcases List.mem_cons.mp hy with rfl | hy'
    · exact (le_foldl_max xs y).1
    · exact (le_foldl_max xs x).2 y hy'

/-- After the main loop every index holds an assigned layer ≥ 0, and the
array keeps length `n`. -/
lemma assignedLayers_total (subtasks : List (List Int)) :
    (assignedLayers subtasks).length = subtasks.length ∧
    ∀ j, j < subtasks.length →
      0 ≤ (assignedLayers subtasks).getD j (-1) := by
  have hloop : ∀ (l : List Nat) (layers : List Int),
      layers.length = subtasks.length →
      (∀ j ∈ l, j < subtasks.length) →
      (l.foldl (fun ls i =>
        (assignLayer subtasks (subtasks.length + 1) i [] ls).1) layers).length
        = subtasks.length ∧
      ∀ j, j < subtasks.length →
        (0 ≤ layers.getD j (-1) ∨ j ∈ l) →
        0 ≤ (l.foldl (fun ls i =>
          (assignLayer subtasks (subtasks.length + 1) i [] ls).1) layers).getD
            j (-1) := by
    intro l
    induction l with
    | nil =>
      intro layers hlen _
      refine ⟨hlen, ?_⟩
      intro j _ hd
      rcases hd with hd | hd
      · exact hd
      · cases hd
    | cons i t ihl =>
      intro layers hlen hjl
      rw [List.foldl_cons]
      have hfr := assignLayer_frame subtasks (subtasks.length + 1) i [] layers
      have hlen' : (assignLayer subtasks (subtasks.length + 1) i []
          layers).1.length = subtasks.length := by rw [hfr.1, hlen]
      obtain ⟨hl2, hp2⟩ := ihl _ hlen'
        (fun j hj => hjl j (List.mem_cons_of_mem _ hj))
      refine ⟨hl2, ?_⟩
      intro j hj hd
      apply hp2 j hj
      rcases hd with hd | hd
      · left
        rw [hfr.2 j hd]
        exact hd
      · rcases List.mem_cons.mp hd with rfl | hd'
        · left
          exact assignLayer_assigns subtasks (subtasks.length + 1) j [] layers
            hj (by simp) List.nodup_nil (by simp) (by simp) hlen
        · right
          exact hd'
  obtain ⟨h1, h2⟩ := hloop (List.range subtasks.length)
    (List.replicate subtasks.length (-1))
    (by rw [List.length_replicate]) (fun j hj => List.mem_range.mp hj)
  exact ⟨h1, fun j hj => h2 j hj (Or.inr (List.mem_range.mpr hj))⟩

/-- On an acyclic graph the loop fills the array with the spec layers. -/
lemma assignedLayers_correct (subtasks : List (List Int)) (f : Nat → Nat)
    (hspec : LayerSpec subtasks f) :
    ∀ j, j < subtasks.length →
      (assignedLayers subtasks).getD j (-1) = (f j : Int) := by
  have hloop : ∀ (l : List Nat) (layers : List Int),
      layers.length = subtasks.length →
      (∀ j ∈ l, j < subtasks.length) →
      (∀ j, j < subtasks.length → 0 ≤ layers.getD j (-1) →
        layers.getD j (-1) = (f j : Int)) →
      ∀ j, j < subtasks.length →
        0 ≤ (l.foldl (fun ls i =>
          (assignLayer subtasks (subtasks.length + 1) i [] ls).1) layers).getD
            j (-1) →
        (l.foldl (fun ls i =>
          (assignLayer subtasks (subtasks.length + 1) i [] ls).1) layers).getD
            j (-1) = (f j : Int) := by
    intro l
    induction l with
    | nil =>
      intro layers _ _ hinv j hj hpos
      exact hinv j hj hpos
    | cons i t ihl =>
      intro layers hlen hjl hinv
      rw [List.foldl_cons]
      have hcor := assignLayer_correct subtasks f hspec
        (subtasks.length + 1) i [] layers (hjl i (List.mem_cons_self _ _))
        (by simp) (by simp) List.nodup_nil hlen hinv (by simp)
      have hfr := assignLayer_frame subtasks (subtasks.length + 1) i [] layers
      exact ihl _ (by rw [hfr.1, hlen])
        (fun j hj => hjl j (List.mem_cons_of_mem _ hj)) hcor.2
  intro j hj
  have htot := assignedLayers_total subtasks
  exact hloop (List.range subtasks.length)
    (List.replicate subtasks.length (-1))
    (by rw [List.length_replicate]) (fun k hk => List.mem_range.mp hk)
    (by
      intro k hk hpos
      exfalso
      rw [getD_replicate_neg] at hpos
      omega) j hj (htot.2 j hj)

/-- `getD` of a mapped range picks the image of the index. -/
lemma getD_map_range (g : Nat → List Nat) : ∀ (m k : Nat), k < m →
    ((List.range m).map g).getD k [] = g k := by
  intro m k h
  have h1 : k < ((List.range m).map g).length := by simpa using h
  rw [List.getD_eq_getElem?_getD, List.getElem?_eq_getElem h1]
  simp

/-- C4 amended: the layer builder assigns a layer to every subtask — none
is dropped, cyclic inputs included; when the in-range dependency graph is
acyclic (it admits a layer function `f` with `f i = 0` for no dependencies
and `1 + max` of the in-range dependencies' layers otherwise), every
subtask `i` is placed exactly in layer `f i`.  A task that closes a
dependency cycle is still assigned a layer, but not layer 0: the re-entered
dependency contributes 0 and the task itself receives `1 + max` (see the
counterexample, where a self-dependent task lands in layer 1). -/
theorem dag_layer_assignment (subtasks : List (List Int)) :
    (∀ i, i < subtasks.length →
      ∃ L ∈ build_execution_layers subtasks, i ∈ L) ∧
    (∀ f, LayerSpec subtasks f → ∀ i, i < subtasks.length →
      i ∈ (build_execution_layers subtasks).getD (f i) []) := by
  have hne : ∀ i, i < subtasks.length → subtasks.isEmpty = false := by
    intro i hi
    cases subtasks with
    | nil => simp at hi
    | cons a t => rfl
  constructor
  · intro i hi
    have htot := assignedLayers_total subtasks
    have hapos : 0 ≤ (assignedLayers subtasks).getD i (-1) := htot.2 i hi
    have hamem : (assignedLayers subtasks).getD i (-1) ∈ assignedLayers subtasks :=
      getD_mem _ i (by rw [htot.1]; exact hi)
    have hale := le_maxAssigned subtasks _ hamem
    unfold build_execution_layers
    rw [if_neg (by rw [hne i hi]; exact Bool.false_ne_true)]
    refine ⟨(List.range subtasks.length).filter
      (fun idx => (assignedLayers subtasks).getD idx (-1)
        == ((((assignedLayers subtasks).getD i (-1)).toNat : Nat) : Int)),
      ?_, ?_⟩
    · refine List.mem_map.mpr ⟨((assignedLayers subtasks).getD i (-1)).toNat,
        ?_, rfl⟩
      rw [List.mem_range]
      omega
    · refine List.mem_filter.mpr ⟨List.mem_range.mpr hi, ?_⟩
      rw [beq_iff_eq]
      omega
  · intro f hspec i hi
    have hgd : (assignedLayers subtasks).getD i (-1) = (f i : Int) :=
      assignedLayers_correct subtasks f hspec i hi
    have hle : (f i : Int) ≤ maxAssigned subtasks := by
      rw [← hgd]
      exact le_maxAssigned subtasks _
        (getD_mem _ i (by rw [(assignedLayers_total subtasks).1]; exact hi))
    unfold build_execution_layers
    rw [if_neg (by rw [hne i hi]; exact Bool.false_ne_true)]
    rw [getD_map_range _ _ (f i) (by omega)]
    refine List.mem_filter.mpr ⟨List.mem_range.mpr hi, ?_⟩
    rw [beq_iff_eq, hgd]

/-- Witness for C4 (amended) on the acyclic two-task input where task 1
depends on task 0: task 0 lands in layer 0 and task 1 in layer 1. -/
theorem dag_layer_assignment_witness :
    0 ∈ (build_execution_layers [[], [0]]).getD 0 [] ∧
    1 ∈ (build_execution_layers [[], [0]]).getD 1 [] ∧
    build_execution_layers [[], [0]] = [[0], [1]] := by
  have hspec : LayerSpec [[], [0]] (fun i => i) := by
    intro i hi
    match i, hi with
    | 0, _ => decide
    | 1, _ => decide
  have hb := (dag_layer_assignment [[], [0]]).2 (fun i => i) hspec
  exact ⟨hb 0 (by decide), hb 1 (by decide), by decide⟩

end Cortex
